import Mathlib

/-
  Verification development for the inventory-app backend.

  Shallow embedding of the business-logic layer:
  - core/soft_delete.py        (soft-delete queryset filter)
  - custom_fields/validation.py (custom-field normalization and validation)
  - audit/utils.py             (audit diff and sensitive-value masking)
  - maintenance/api.py         (due-date calculator and plan recalculation)
  - config/auth_api.py, audit/signals.py, inventory/api.py (audit logging flow)

  Python dicts are modelled as insertion-ordered association lists with
  first-occurrence lookup and in-place update (the semantics of a Python
  dict whose keys are unique, which CPython guarantees).
-/

namespace InventoryApp

/- ### String primitives

The Python string operations used by the embedded code (`strip`, `lower`,
`casefold`, single-character `replace`, substring search, split) are
modelled over character lists, so that every definition evaluates inside
the kernel. -/

/-- The whitespace stripped by Python `str.strip()` (space, tab, newline,
vertical tab, form feed, carriage return). -/
def isPyWS (c : Char) : Bool :=
  c.toNat = 32 ∨ c.toNat = 9 ∨ c.toNat = 10 ∨ c.toNat = 11 ∨
  c.toNat = 12 ∨ c.toNat = 13

/-- `str.strip()` on a character list. -/
def pyStripList (l : List Char) : List Char :=
  ((l.dropWhile isPyWS).reverse.dropWhile isPyWS).reverse

/-- `str.strip()`. -/
def pyStrip (s : String) : String := String.mk (pyStripList s.toList)

/-- ASCII lowercasing of one character (`str.lower()` restricted to the
ASCII range all compared literals live in). -/
def asciiLowerChar (c : Char) : Char :=
  if 65 ≤ c.toNat ∧ c.toNat ≤ 90 then Char.ofNat (c.toNat + 32) else c

/-- `str.lower()`. -/
def pyLower (s : String) : String := String.mk (s.toList.map asciiLowerChar)

/-- Whether `pre` is a prefix of `l`. -/
def listIsPrefixOf : List Char → List Char → Bool
  | [], _ => true
  | _ :: _, [] => false
  | a :: as, b :: bs => a = b && listIsPrefixOf as bs

/-- Whether `pat` occurs as a contiguous sublist of `l` (`pat in s` /
`re.search` of a literal pattern). -/
def listContainsSub (pat : List Char) : List Char → Bool
  | [] => pat.isEmpty
  | l@(_ :: rest) => listIsPrefixOf pat l || listContainsSub pat rest

/-- Substring test on strings. -/
def strContains (s pat : String) : Bool := listContainsSub pat.toList s.toList

/-- Split a character list on a separator character (`str.split(sep)` for a
one-character separator). -/
def splitOnChar (c : Char) (l : List Char) : List (List Char) :=
  l.foldr (fun x acc =>
    match acc with
    | cur :: rest => if x = c then [] :: cur :: rest else (x :: cur) :: rest
    | [] => [[x]]) [[]]

/-- Lookup in an insertion-ordered dict (Python `d.get(k)`), first match. -/
def dictGet {α : Type} : List (String × α) → String → Option α
  | [], _ => Option.none
  | p :: rest, k => if p.1 = k then some p.2 else dictGet rest k

/-- Assignment `d[k] = v` on an insertion-ordered dict: update in place if the
key is present, otherwise append at the end (Python dict semantics). -/
def dictInsert {α : Type} : List (String × α) → String → α → List (String × α)
  | [], k, v => [(k, v)]
  | p :: rest, k, v => if p.1 = k then (k, v) :: rest else p :: dictInsert rest k v

/-- Removal `d.pop(k, None)`: drops the entry for `k` when present. -/
def dictRemove {α : Type} (m : List (String × α)) (k : String) : List (String × α) :=
  m.filter (fun p => p.1 ≠ k)

/- ### Soft-delete filter — core/soft_delete.py -/

namespace SoftDelete

open InventoryApp

/-- A row of a soft-deletable entity; the filter inspects only `deleted_at`
(`None` = active, `some t` = soft-deleted at time `t`). -/
structure Row where
  deleted_at : Option Nat
deriving DecidableEq, Repr

/-- The truthy query-flag values (`TRUTHY` in core/soft_delete.py line 19). -/
def TRUTHY : List String := ["1", "true", "yes", "on"]

/-- Python `str(x).strip().lower()` applied to a query-flag string (the flags
compared against `TRUTHY` are ASCII). -/
def stripLower (s : String) : String := pyLower (pyStrip s)

/-- Lines 43/45: `(query_params.get(name) if query_params else "") or ""` —
a missing mapping, an empty (falsy) mapping, a missing key, or an empty
value all yield the empty string. -/
def flagFromParams (qp : Option (List (String × String))) (name : String) : String :=
  match qp with
  | Option.none => ""
  | some m => if m.isEmpty then "" else (dictGet m name).getD ""

/-- Lines 42-45: a directly supplied flag wins; otherwise it is read from the
query params. -/
def effectiveFlag (direct : Option String) (qp : Option (List (String × String)))
    (name : String) : String :=
  match direct with
  | some s => s
  | Option.none => flagFromParams qp name

/-- `apply_soft_delete_filters` (core/soft_delete.py lines 22-58). The base
queryset is a list of rows; `deleted_at__isnull=False` keeps rows with the
timestamp set, `deleted_at__isnull=True` keeps rows with it unset. -/
def apply_soft_delete_filters (qs : List Row)
    (qp : Option (List (String × String)))
    (action_name : Option String)
    (include_deleted only_deleted : Option String) : List Row :=
  let inc := stripLower (effectiveFlag include_deleted qp "include_deleted")
  let only := stripLower (effectiveFlag only_deleted qp "only_deleted")
  let inc := if action_name.getD "" = "restore" then "1" else inc
  if only ∈ TRUTHY then qs.filter (fun r => r.deleted_at.isSome)
  else if inc ∈ TRUTHY then qs
  else qs.filter (fun r => r.deleted_at.isNone)

end SoftDelete

/- ### Dates — model of Python `datetime.date` arithmetic used by
maintenance/api.py (proleptic Gregorian calendar) -/

namespace Dates

/-- Gregorian leap-year rule (`calendar.isleap`). -/
def isLeap (y : Nat) : Bool := (y % 4 = 0 && y % 100 ≠ 0) || y % 400 = 0

/-- Days in a month (`calendar.monthrange(y, m)[1]`), for `1 ≤ m ≤ 12`. -/
def daysInMonth (y m : Nat) : Nat :=
  if m = 2 then (if isLeap y then 29 else 28)
  else if m = 4 ∨ m = 6 ∨ m = 9 ∨ m = 11 then 30
  else 31

/-- A raw year/month/day triple, as carried by a Python `date`. -/
structure Date where
  y : Nat
  m : Nat
  d : Nat
deriving DecidableEq, Repr

/-- The triples accepted by the `date(y, m, d)` constructor: Python raises
`ValueError` outside `MINYEAR..MAXYEAR` (1..9999) or outside the month's
day range. -/
def validYMD (y m d : Nat) : Bool :=
  1 ≤ y && y ≤ 9999 && 1 ≤ m && m ≤ 12 && 1 ≤ d && d ≤ daysInMonth y m

/-- `date(y, m, d)` with `ValueError` mapped to `Option.none`. -/
def mkDate? (y m d : Nat) : Option Date :=
  if validYMD y m d then some ⟨y, m, d⟩ else Option.none

/-- The calendar successor of a day (used to model `+ timedelta(days=n)`). -/
def nextDay (dt : Date) : Date :=
  if dt.d < daysInMonth dt.y dt.m then ⟨dt.y, dt.m, dt.d + 1⟩
  else if dt.m < 12 then ⟨dt.y, dt.m + 1, 1⟩
  else ⟨dt.y + 1, 1, 1⟩

/-- The calendar predecessor of a day (used to model `- timedelta(days=1)`). -/
def prevDay (dt : Date) : Date :=
  if 1 < dt.d then ⟨dt.y, dt.m, dt.d - 1⟩
  else if 1 < dt.m then ⟨dt.y, dt.m - 1, daysInMonth dt.y (dt.m - 1)⟩
  else ⟨dt.y - 1, 12, 31⟩

/-- `dt + timedelta(days=n)` for `n ≥ 0` (the calculator only adds positive
spans). -/
def addDays : Date → Nat → Date
  | dt, 0 => dt
  | dt, n + 1 => addDays (nextDay dt) n

/-- Python `date` ordering: lexicographic on (year, month, day). -/
def dateLT (a b : Date) : Prop :=
  a.y < b.y ∨ (a.y = b.y ∧ (a.m < b.m ∨ (a.m = b.m ∧ a.d < b.d)))

instance (a b : Date) : Decidable (dateLT a b) := by
  unfold dateLT; infer_instance

/-- Non-strict counterpart of `dateLT`. -/
def dateLE (a b : Date) : Prop := dateLT a b ∨ a = b

instance (a b : Date) : Decidable (dateLE a b) := by
  unfold dateLE; infer_instance

end Dates

/- ### Maintenance due-date calculator — maintenance/api.py -/

namespace Maintenance

open Dates

/-- `_add_months` (maintenance/api.py lines 24-30): calendar-month addition
clamped to the last day of the resulting month. -/
def add_months (dt : Date) (months : Nat) : Date :=
  let total_months := dt.m - 1 + months
  let year := dt.y + total_months / 12
  let month := total_months % 12 + 1
  let day := min dt.d (daysInMonth year month)
  ⟨year, month, day⟩

/-- `compute_next_due_date` (maintenance/api.py lines 33-73). `today_year`
stands for `date.today().year`, used only when `reference_year` is falsy
(absent or 0). `interval_value`, `fixed_month`, `fixed_day` are the
non-negative integers of the model (`PositiveIntegerField`), optional. -/
def compute_next_due_date (schedule_type : String) (interval_value : Option Nat)
    (interval_unit : Option String) (fixed_month fixed_day : Option Nat)
    (reference_year : Option Nat) (today_year : Nat) : Option Date :=
  let year := match reference_year with
    | some y => if y = 0 then today_year else y
    | Option.none => today_year
  if schedule_type = "interval" then
    match interval_value, interval_unit with
    | some v, some u =>
      if v = 0 ∨ u = "" then Option.none
      else
        let start : Date := ⟨year, 1, 1⟩
        if u = "days" then some (prevDay (addDays start v))
        else if u = "weeks" then some (prevDay (addDays start (7 * v)))
        else if u = "months" then some (prevDay (add_months start v))
        else if u = "years" then some (prevDay (add_months start (12 * v)))
        else Option.none
    | _, _ => Option.none
  else if schedule_type = "fixed_date" then
    match fixed_month, fixed_day with
    | some fm, some fd =>
      if fm = 0 ∨ fd = 0 then Option.none else mkDate? year fm fd
    | _, _ => Option.none
  else Option.none

/-- The scheduling fields of a `MaintenancePlan` read by
`_recalculate_plan_due_date` (`next_due_date` is a non-null `DateField`). -/
structure Plan where
  schedule_type : String
  interval_value : Option Nat
  interval_unit : Option String
  fixed_month : Option Nat
  fixed_day : Option Nat
  next_due_date : Date
deriving DecidableEq, Repr

/-- `_recalculate_plan_due_date` (maintenance/api.py lines 434-450):
recompute with `reference_year = event.performed_at.year + 1` and update the
plan only when the new date is strictly later (`next_date and next_date >
plan.next_due_date`; a `date` object is always truthy). -/
def recalculate_plan_due_date (plan : Plan) (performed_year : Nat)
    (today_year : Nat) : Plan :=
  match compute_next_due_date plan.schedule_type plan.interval_value
      plan.interval_unit plan.fixed_month plan.fixed_day
      (some (performed_year + 1)) today_year with
  | some next_date =>
    if dateLT plan.next_due_date next_date then
      { plan with next_due_date := next_date }
    else plan
  | Option.none => plan

end Maintenance

/- ### Custom-field normalization and validation — custom_fields/validation.py -/

namespace CustomFields

open InventoryApp

/-- JSON values carried in a `custom_fields` payload (the inputs of
`normalize_and_validate_custom_fields` come from parsed JSON, so these are
the only shapes that occur). `float` is modelled as a rational: every claim
exercises short decimal literals, which Python floats represent exactly. -/
inductive JVal
  | null
  | bool (b : Bool)
  | int (n : Int)
  | float (q : Rat)
  | str (s : String)
  | list (vs : List JVal)
  | obj (kvs : List (String × JVal))

/-- Python `casefold()` restricted to the character range the normalizer can
meet: ASCII letters plus the accented vowels of `_norm_key`'s replacement
table (for all of which casefold agrees with simple lowercasing). -/
def pyCasefoldChar (c : Char) : Char :=
  if 65 ≤ c.toNat ∧ c.toNat ≤ 90 then Char.ofNat (c.toNat + 32)
  else if c = 'À' then 'à'
  else if c = 'Á' then 'á'
  else if c = 'Â' then 'â'
  else if c = 'Ä' then 'ä'
  else if c = 'È' then 'è'
  else if c = 'É' then 'é'
  else if c = 'Ê' then 'ê'
  else if c = 'Ì' then 'ì'
  else if c = 'Í' then 'í'
  else if c = 'Ò' then 'ò'
  else if c = 'Ó' then 'ó'
  else if c = 'Ù' then 'ù'
  else if c = 'Ú' then 'ú'
  else c

/-- The accent-stripping `.replace` chain of `_norm_key`: each pattern is a
single character, so the chain is a character map. -/
def normAccentChar (c : Char) : Char :=
  if c = 'à' ∨ c = 'á' ∨ c = 'â' ∨ c = 'ä' then 'a'
  else if c = 'è' ∨ c = 'é' ∨ c = 'ê' then 'e'
  else if c = 'ì' ∨ c = 'í' then 'i'
  else if c = 'ò' ∨ c = 'ó' then 'o'
  else if c = 'ù' ∨ c = 'ú' then 'u'
  else c

/-- `_norm_key` (validation.py lines 12-38): trim, casefold, strip the
common accents, drop apostrophes. `(s or "")` is the identity on strings. -/
def norm_key (s : String) : String :=
  String.mk ((((pyStripList s.toList).map pyCasefoldChar).map
    normAccentChar).filter (fun c => c.toNat ≠ 39))

/-- The `field_type` choices of `CustomFieldDefinition`. -/
inductive FieldType
  | text
  | number
  | boolean
  | date
  | select
deriving DecidableEq, Repr

/-- The fields of a `CustomFieldDefinition` row read by the validator. The
definitions handed to `get_definition_maps` are already the active,
non-deleted rows for the entity in `sort_order, label, key` order — the
database query is modelled by passing that list. -/
structure FieldDef where
  key : String
  field_type : FieldType
  required : Bool
  options : Option JVal
  aliases : Option (List String)

/-- `DefMaps` (validation.py lines 49-52). -/
structure DefMaps where
  defs_by_key : List (String × FieldDef)
  alias_to_key : List (String × String)

/-- The alias map entries contributed by one definition (body of the `for d
in defs` loop, lines 65-68): the normalized canonical key first, then every
normalized alias, all mapping to the canonical key. -/
def addDefToAliasMap (m : List (String × String)) (d : FieldDef) :
    List (String × String) :=
  (d.aliases.getD []).foldl (fun m a => dictInsert m (norm_key a) d.key)
    (dictInsert m (norm_key d.key) d.key)

/-- `get_definition_maps` (validation.py lines 55-69), over the fetched
definition list. -/
def get_definition_maps (defs : List FieldDef) : DefMaps :=
  { defs_by_key := defs.foldl (fun m d => dictInsert m d.key d) []
    alias_to_key := defs.foldl addDefToAliasMap [] }

/-- Python `str(v)` on the scalar JSON values (the container and float
renderings are never inspected by any claim: they only ever flow into
parsers or token-set membership tests that reject them). -/
def pyStr : JVal → String
  | .null => "None"
  | .bool true => "True"
  | .bool false => "False"
  | .int n => toString n
  | .float q => toString q
  | .str s => s
  | .list _ => "["
  | .obj _ => "\x7b\x7d"

/-- Python truthiness of a JSON value (`or []` on `d.options`). -/
def pyTruthy : JVal → Bool
  | .null => false
  | .bool b => b
  | .int n => n ≠ 0
  | .float q => q ≠ 0
  | .str s => s ≠ ""
  | .list vs => ¬ vs.isEmpty
  | .obj kvs => ¬ kvs.isEmpty

/-- Test for the `None` value (`coerced is None`). -/
def isNull : JVal → Bool
  | .null => true
  | _ => false

/-- Python `v in (None, "")`: equality against `None` or the empty string
(no other JSON value compares equal to either). -/
def isNoneOrEmptyStr : JVal → Bool
  | .null => true
  | .str s => s = ""
  | _ => false

/-- `coerced is None or (isinstance(coerced, str) and not coerced.strip())`
(validation.py line 226, and the identical test on line 240). -/
def isNoneOrBlankStr : JVal → Bool
  | .null => true
  | .str s => (pyStripList s.toList).isEmpty
  | _ => false

/-- Digit-string value, for the model of Python `float()`. -/
def digitsToNat (l : List Char) : Nat :=
  l.foldl (fun a c => a * 10 + (c.toNat - 48)) 0

/-- Model of Python `float(s)` on the decimal literals the validator can
receive: optional sign, then digits with an optional decimal point (at
least one digit overall). Exponents, `inf`/`nan` and underscore separators
are outside the modelled input alphabet. Returns the exact rational. -/
def pyParseFloat (s : String) : Option Rat :=
  let cs := s.toList
  let signed : Int × List Char :=
    match cs with
    | '-' :: r => (-1, r)
    | '+' :: r => (1, r)
    | r => (1, r)
  let intPart := signed.2.takeWhile Char.isDigit
  let rest := signed.2.dropWhile Char.isDigit
  match rest with
  | [] =>
    if intPart.isEmpty then Option.none
    else some (mkRat (signed.1 * digitsToNat intPart) 1)
  | '.' :: frac =>
    if frac.all Char.isDigit ∧ ¬ (intPart.isEmpty ∧ frac.isEmpty) then
      some (mkRat
        (signed.1 * ((digitsToNat intPart : Int) * (10 : Int) ^ frac.length
          + (digitsToNat frac : Int)))
        ((10 : Nat) ^ frac.length))
    else Option.none
  | _ => Option.none

/-- `_coerce_number` (validation.py lines 87-103). Returns `.null` for
Python `None`. `bool` is tested before `int`/`float` (it is a subclass);
ints and floats pass through unreduced; only the string path replaces the
comma, parses, and reduces an integral float to `int`. `str()` of a list or
object never parses as a float. -/
def coerce_number : JVal → JVal
  | .null => .null
  | .bool b => .int (if b then 1 else 0)
  | .int n => .int n
  | .float q => .float q
  | .str s =>
    if s = "" then .null
    else
      let s2 := String.mk ((pyStripList s.toList).map
        (fun c => if c = ',' then '.' else c))
      if s2 = "" then .null
      else
        match pyParseFloat s2 with
        | Option.none => .null
        | some q => if q.den = 1 then .int q.num else .float q
  | .list _ => .null
  | .obj _ => .null

/-- `_coerce_bool` (validation.py lines 72-84). `bool` first, then numbers,
then the casefolded token sets; anything else (including `str()` of a
container, which is never a token) yields `None`. -/
def coerce_bool : JVal → JVal
  | .null => .null
  | .bool b => .bool b
  | .int n => .bool (n ≠ 0)
  | .float q => .bool (q ≠ 0)
  | .str s =>
    if s = "" then .null
    else
      let t := String.mk ((pyStripList s.toList).map pyCasefoldChar)
      if ["1", "true", "yes", "y", "on"].contains t then .bool true
      else if ["0", "false", "no", "n", "off"].contains t then .bool false
      else .null
  | .list _ => .null
  | .obj _ => .null

/-- A string is a well-formed `YYYY-MM-DD` ISO date (the only format
`date.fromisoformat` accepts): model of the `try` on lines 117-121. -/
def isIsoDate (s : String) : Bool :=
  match splitOnChar '-' s.toList with
  | [ys, ms, ds] =>
    ys.length = 4 && ms.length = 2 && ds.length = 2 &&
    ys.all Char.isDigit && ms.all Char.isDigit && ds.all Char.isDigit &&
    Dates.validYMD (digitsToNat ys) (digitsToNat ms) (digitsToNat ds)
  | _ => false

/-- `_coerce_date` (validation.py lines 106-121) on JSON values (the
`date`/`datetime` instance branches cannot be reached from parsed JSON):
a valid ISO string is returned stripped, anything else yields `None`. -/
def coerce_date : JVal → JVal
  | .null => .null
  | .str s =>
    if s = "" then .null
    else
      let t := pyStrip s
      if t = "" then .null
      else if isIsoDate t then .str t else .null
  | v =>
    let t := pyStrip (pyStr v)
    if t = "" then .null
    else if isIsoDate t then .str t else .null

/-- One step of the canonicalization loop (validation.py lines 162-172):
rewrite a key to its canonical spelling when the normalized spelling is
known (`if canonical_key:` is Python truthiness, so an empty canonical key
falls back to the raw key), else keep the raw key. -/
def canonicalizeStep (maps : DefMaps) (normalized : List (String × JVal))
    (kv : String × JVal) : List (String × JVal) :=
  match dictGet maps.alias_to_key (norm_key kv.1) with
  | some c => if c = "" then dictInsert normalized kv.1 kv.2
              else dictInsert normalized c kv.2
  | Option.none => dictInsert normalized kv.1 kv.2

/-- The canonicalization pass (validation.py lines 154-172): start from the
base object (the existing values on a partial update) and overlay each
incoming key. -/
def canonicalizeIncoming (maps : DefMaps) (base : List (String × JVal))
    (incoming : List (String × JVal)) : List (String × JVal) :=
  incoming.foldl (canonicalizeStep maps) base

/-- The type dispatch of the validation loop (validation.py lines 180-220):
the coerced value together with the error message this definition records,
if any. -/
def coerceForDef (d : FieldDef) (val : JVal) : JVal × Option String :=
  match d.field_type with
  | .text =>
    (match val with
     | .null => .null
     | .str s => .str s
     | v => .str (pyStr v), Option.none)
  | .number =>
    let c := coerce_number val
    (c, if ¬ isNoneOrEmptyStr val ∧ isNull c
        then some "Numero non valido." else Option.none)
  | .boolean =>
    let c := coerce_bool val
    (c, if ¬ isNoneOrEmptyStr val ∧ isNull c
        then some "Valore boolean non valido." else Option.none)
  | .date =>
    let c := coerce_date val
    (c, if ¬ isNoneOrEmptyStr val ∧ isNull c
        then some "Data non valida (atteso YYYY-MM-DD)." else Option.none)
  | .select =>
    if isNoneOrEmptyStr val then (.null, Option.none)
    else
      let c := pyStr val
      let opts := match d.options with
        | some o => if pyTruthy o then o else .list []
        | Option.none => .list []
      let allowed : List String := match opts with
        | .obj kvs => kvs.map (fun p => p.1)
        | .list xs => xs.map pyStr
        | _ => []
      (.str c,
       if ¬ allowed.isEmpty ∧ ¬ allowed.contains c
       then some "Valore non ammesso." else Option.none)

/-- The message the validation loop leaves under a definition's key given
the value it sees: the required-field message wins over the coercion
message because it is assigned afterwards (lines 224-228). -/
def fieldMsg (d : FieldDef) (val : JVal) : Option String :=
  if d.required ∧ isNoneOrBlankStr (coerceForDef d val).1 then
    some "Campo obbligatorio."
  else (coerceForDef d val).2

/-- The error-dict update of one iteration of the validation loop: the
coercion message (if any) is recorded first, and the required-field
message is recorded afterwards (overwriting it, lines 224-228). -/
def stepErrors (kd : String × FieldDef) (val : JVal)
    (errors : List (String × String)) : List (String × String) :=
  let r := coerceForDef kd.2 val
  let errors := match r.2 with
    | some msg => dictInsert errors kd.1 msg
    | Option.none => errors
  if kd.2.required ∧ isNoneOrBlankStr r.1 then
    dictInsert errors kd.1 "Campo obbligatorio."
  else errors

/-- The validation loop over `maps.defs_by_key` (validation.py lines
175-228), threading the normalized object and the error dict. -/
def validateAll : List (String × FieldDef) → List (String × JVal) →
    List (String × String) → List (String × JVal) × List (String × String)
  | [], normalized, errors => (normalized, errors)
  | kd :: rest, normalized, errors =>
    validateAll rest
      (dictInsert normalized kd.1
        (coerceForDef kd.2 ((dictGet normalized kd.1).getD .null)).1)
      (stepErrors kd ((dictGet normalized kd.1).getD .null) errors)

/-- The cleanup pass (validation.py lines 236-241): for every non-required
known field, drop the stored value when it is `None` or a blank string
(`normalized.get` of an absent key gives `None`, and popping it is a
no-op). -/
def cleanStep (m : List (String × JVal)) (kd : String × FieldDef) :
    List (String × JVal) :=
  if kd.2.required then m
  else
    match dictGet m kd.1 with
    | Option.none => m
    | some v => if isNoneOrBlankStr v then dictRemove m kd.1 else m

/-- The cleanup loop over `maps.defs_by_key`. -/
def cleanOptionalEmpty (defs_by_key : List (String × FieldDef))
    (m : List (String × JVal)) : List (String × JVal) :=
  defs_by_key.foldl cleanStep m

/-- The two shapes of `serializers.ValidationError({"custom_fields": ...})`
raised by the validator: a bare message for a non-object payload, or the
aggregated field→message map. -/
inductive VErr
  | notObject (msg : String)
  | fields (errs : List (String × String))

/-- `normalize_and_validate_custom_fields` (validation.py lines 124-247).
`incoming = Option.none` models the argument `None` (caller skips);
a non-object payload raises; otherwise canonicalize, validate every known
definition collecting errors, raise them together if any, then clean empty
optional values and collapse an empty result to `None`. -/
def normalize_and_validate_custom_fields (defs : List FieldDef)
    (incoming : Option JVal) (existing : Option (List (String × JVal)))
    (partialUpdate : Bool) : Except VErr (Option (List (String × JVal))) :=
  match incoming with
  | Option.none => .ok Option.none
  | some inc =>
    match inc with
    | .obj kvs =>
      let maps := get_definition_maps defs
      let base := if partialUpdate then existing.getD [] else []
      let normalized := canonicalizeIncoming maps base kvs
      let res := validateAll maps.defs_by_key normalized []
      if ¬ res.2.isEmpty then .error (.fields res.2)
      else
        let cleaned := cleanOptionalEmpty maps.defs_by_key res.1
        if cleaned.isEmpty then .ok Option.none else .ok (some cleaned)
    | _ => .error (.notObject "Deve essere un oggetto JSON.")

/-- Whether an incoming key spelling matches a definition, in the sense of
the spec: its normalized spelling equals the normalized canonical key or
the normalized spelling of one of the aliases. -/
def defMatchesNorm (d : FieldDef) (n : String) : Prop :=
  n = norm_key d.key ∨ ∃ a ∈ d.aliases.getD [], n = norm_key a

instance (d : FieldDef) (n : String) : Decidable (defMatchesNorm d n) := by
  unfold defMatchesNorm; infer_instance

end CustomFields

/- ### Audit diff and masking — audit/utils.py -/

namespace Audit

open InventoryApp

/-- The Python values flowing through the audit diff helpers: JSON scalars,
dates/datetimes, Django model instances (pk + `str()` representation),
lists (also covering tuples and sets) and string-keyed dicts. -/
inductive AVal
  | null
  | bool (b : Bool)
  | int (n : Int)
  | float (q : Rat)
  | str (s : String)
  | date (y m d : Nat)
  | datetime (y m d hh mi ss : Nat)
  | model (pk : Option Int) (rep : String)
  | list (vs : List AVal)
  | dict (kvs : List (String × AVal))

/-- Zero-padded two-digit rendering, for `isoformat()`. -/
def pad2 (n : Nat) : String :=
  if n < 10 then "0" ++ toString n else toString n

/-- Zero-padded four-digit year rendering, for `isoformat()`. -/
def pad4 (n : Nat) : String :=
  if n < 10 then "000" ++ toString n
  else if n < 100 then "00" ++ toString n
  else if n < 1000 then "0" ++ toString n
  else toString n

/-- `date.isoformat()`. -/
def isoDateStr (y m d : Nat) : String :=
  pad4 y ++ "-" ++ pad2 m ++ "-" ++ pad2 d

/-- `datetime.isoformat()` (without sub-second digits). -/
def isoDateTimeStr (y m d hh mi ss : Nat) : String :=
  isoDateStr y m d ++ "T" ++ pad2 hh ++ ":" ++ pad2 mi ++ ":" ++ pad2 ss

/-- Numeric view used by Python `==`: `bool` is a subclass of `int`, so
`True == 1` and `1 == 1.0` hold across `bool`/`int`/`float`. -/
def numVal? : AVal → Option Rat
  | .bool b => some (if b then 1 else 0)
  | .int n => some (n : Rat)
  | .float q => some q
  | _ => Option.none

mutual

/-- Python `==` on the modelled values: numeric cross-type equality;
strings, dates and datetimes by value; model instances by primary key
(two instances with `pk = None` are distinct objects); lists pointwise;
dicts by key set and per-key equality. -/
def pyEq : AVal → AVal → Bool
  | a, b =>
    match numVal? a, numVal? b with
    | some x, some y => x = y
    | _, _ =>
      match a, b with
      | .null, .null => true
      | .str s, .str t => s = t
      | .date y1 m1 d1, .date y2 m2 d2 => y1 = y2 && m1 = m2 && d1 = d2
      | .datetime y1 m1 d1 h1 i1 s1, .datetime y2 m2 d2 h2 i2 s2 =>
        y1 = y2 && m1 = m2 && d1 = d2 && h1 = h2 && i1 = i2 && s1 = s2
      | .model p1 _, .model p2 _ =>
        match p1, p2 with
        | some x, some y => x = y
        | _, _ => false
      | .list xs, .list ys => pyEqList xs ys
      | .dict xs, .dict ys => xs.length = ys.length && pyEqDictSub xs ys
      | _, _ => false

/-- Pointwise list equality. -/
def pyEqList : List AVal → List AVal → Bool
  | [], [] => true
  | x :: xs, y :: ys => pyEq x y && pyEqList xs ys
  | _, _ => false

/-- Every entry of the first dict is present (by key) and equal in the
second. -/
def pyEqDictSub : List (String × AVal) → List (String × AVal) → Bool
  | [], _ => true
  | (k, v) :: rest, ys => pyEqFind k v ys && pyEqDictSub rest ys

/-- Find key `k` in a dict and compare its value with `v`. -/
def pyEqFind (k : String) (v : AVal) : List (String × AVal) → Bool
  | [] => false
  | (k2, v2) :: ys => if k2 = k then pyEq v v2 else pyEqFind k v ys

end

mutual

/-- `to_change_value` (audit/utils.py lines 42-69): `None` passes through;
a model instance becomes `{'id': pk, 'repr': str-truncated-to-180}`;
scalars pass through; dates/datetimes become ISO strings; lists and dicts
are converted recursively. The nested values go through `to_change_value`
itself — the per-field sensitive check of `to_change_value_for_field` is
not re-applied to nested keys. -/
def to_change_value : AVal → AVal
  | .null => .null
  | .model pk rep =>
    let r := if rep.toList.length > 180 then String.mk (rep.toList.take 177) ++ "…"
             else rep
    .dict [("id", match pk with | some n => .int n | Option.none => .null),
           ("repr", .str r)]
  | .bool b => .bool b
  | .int n => .int n
  | .float q => .float q
  | .str s => .str s
  | .date y m d => .str (isoDateStr y m d)
  | .datetime y m d hh mi ss => .str (isoDateTimeStr y m d hh mi ss)
  | .list vs => .list (to_change_value_list vs)
  | .dict kvs => .dict (to_change_value_dict kvs)

/-- Recursive conversion of a list value. -/
def to_change_value_list : List AVal → List AVal
  | [] => []
  | v :: vs => to_change_value v :: to_change_value_list vs

/-- Recursive conversion of a dict value (`{str(k): to_change_value(v)}`;
keys are already strings). -/
def to_change_value_dict : List (String × AVal) → List (String × AVal)
  | [] => []
  | (k, v) :: kvs => (k, to_change_value v) :: to_change_value_dict kvs

end

mutual

/-- `to_primitive` (audit/utils.py lines 24-37): scalars pass through,
dates become ISO strings, a model instance reduces to its pk, containers
recurse. -/
def to_primitive : AVal → AVal
  | .null => .null
  | .bool b => .bool b
  | .int n => .int n
  | .float q => .float q
  | .str s => .str s
  | .date y m d => .str (isoDateStr y m d)
  | .datetime y m d hh mi ss => .str (isoDateTimeStr y m d hh mi ss)
  | .model pk _ => match pk with | some n => .int n | Option.none => .null
  | .list vs => .list (to_primitive_list vs)
  | .dict kvs => .dict (to_primitive_dict kvs)

/-- Recursive primitive conversion of a list. -/
def to_primitive_list : List AVal → List AVal
  | [] => []
  | v :: vs => to_primitive v :: to_primitive_list vs

/-- Recursive primitive conversion of a dict. -/
def to_primitive_dict : List (String × AVal) → List (String × AVal)
  | [] => []
  | (k, v) :: kvs => (k, to_primitive v) :: to_primitive_dict kvs

end

/-- `SENSITIVE_FIELD_RE.search(name)` (audit/utils.py line 40): the
case-insensitive pattern
`(password|pass|pwd|secret|token|api[_-]?key|private[_-]?key|access[_-]?key)`
as a substring test on the lowercased name (the pattern is ASCII). -/
def sensitive_field (name : String) : Bool :=
  let n := pyLower name
  strContains n "password" || strContains n "pass" || strContains n "pwd" ||
  strContains n "secret" || strContains n "token" ||
  strContains n "apikey" || strContains n "api_key" || strContains n "api-key" ||
  strContains n "privatekey" || strContains n "private_key" ||
  strContains n "private-key" ||
  strContains n "accesskey" || strContains n "access_key" ||
  strContains n "access-key"

/-- Python `value in (None, '')`: only `None` and the empty string compare
equal to a member of that tuple among the modelled values. -/
def isEmptyish : AVal → Bool
  | .null => true
  | .str s => s = ""
  | _ => false

/-- `to_change_value_for_field` (audit/utils.py lines 74-78): when the
(non-empty) field name matches the sensitive pattern, a value equal to
`None` or `''` becomes `None` and anything else becomes the fixed
placeholder; otherwise the plain converter runs. -/
def to_change_value_for_field (field_name : String) (value : AVal) : AVal :=
  if field_name ≠ "" && sensitive_field field_name then
    match value with
    | .null => .null
    | .str s => if s = "" then .null else .str "••••"
    | _ => .str "••••"
  else to_change_value value

/-- `getattr(instance, f, None)` on an instance modelled as its field
dict. -/
def getattrD (inst : List (String × AVal)) (f : String) : AVal :=
  (dictGet inst f).getD .null

/-- `diff_fields` (audit/utils.py lines 81-90): both sides are converted
with `to_change_value_for_field` first, and an entry `{f: {from, to}}` is
recorded only when the converted (hence already masked) values differ. -/
def diff_fields (instance_before instance_after : List (String × AVal))
    (fields : List String) : List (String × (AVal × AVal)) :=
  fields.foldl (fun changes f =>
    let b := to_change_value_for_field f (getattrD instance_before f)
    let a := to_change_value_for_field f (getattrD instance_after f)
    if pyEq b a then changes else dictInsert changes f (b, a)) []

/-- `_changes_from_validated` (inventory/api.py lines 324-334, identical in
crm/api.py): the comparison runs on the unmasked `to_primitive` views, and
only the stored sides are masked. -/
def changes_from_validated (inst : List (String × AVal))
    (validated : List (String × AVal)) : List (String × (AVal × AVal)) :=
  validated.foldl (fun changes kv =>
    let before_raw := getattrD inst kv.1
    if pyEq (to_primitive before_raw) (to_primitive kv.2) then changes
    else dictInsert changes kv.1
      (to_change_value_for_field kv.1 before_raw,
       to_change_value_for_field kv.1 kv.2)) []

end Audit

/- ### Audit logging flow — audit/utils.py, config/auth_api.py,
audit/signals.py, inventory/api.py -/

namespace AuditFlow

/-- The audit store: whether `AuditEvent.objects.create` succeeds. An
`Except.error` models a raised exception propagating to the caller. -/
structure AuditBackend where
  append_ok : Bool
deriving DecidableEq, Repr

/-- `AuditEvent.objects.create(...)`: raises on a backend failure. -/
def audit_event_create (be : AuditBackend) : Except String Unit :=
  if be.append_ok then .ok () else .error "database error"

/-- `log_event` (audit/utils.py lines 173-199): builds the row and calls
`AuditEvent.objects.create` with no exception handling of its own. -/
def log_event (be : AuditBackend) : Except String Unit :=
  audit_event_create be

/-- `log_auth_attempt` (audit/utils.py lines 202-246): the whole body is
inside `try: ... except Exception: return None`. -/
def log_auth_attempt (be : AuditBackend) : Option Unit :=
  match audit_event_create be with
  | .ok _ => some ()
  | .error _ => Option.none

/-- `logout_view` (config/auth_api.py lines 49-57): `log_event` wrapped in
`try/except: pass`, then the session is invalidated and 200 returned. -/
def logout_view (be : AuditBackend) : Except String Nat :=
  match log_event be with
  | _ => .ok 200

/-- `audit_login` signal handler (audit/signals.py lines 10-25): `log_event`
wrapped in `try/except: pass`. -/
def audit_login_signal (be : AuditBackend) : Except String Unit :=
  match log_event be with
  | _ => .ok ()

/-- `login_view` success path (config/auth_api.py lines 25-43): `login()`
fires the `user_logged_in` signal (handled by `audit_login`), then 200. -/
def login_view (be : AuditBackend) : Except String Nat :=
  match audit_login_signal be with
  | .ok _ => .ok 200
  | .error e => .error e

/-- `perform_create` (inventory/api.py lines 336-342, same shape in
crm/api.py): `serializer.save()` then a bare `log_event` call — a failure
while appending the audit event propagates to the caller. The saved
instance id stands for the created object. -/
def perform_create (be : AuditBackend) (inst : Nat) : Except String Nat := do
  let saved := inst
  let _ ← log_event be
  pure saved

/-- `perform_destroy` (inventory/api.py lines 371-382): soft-delete the
instance, then a bare `log_event` call. -/
def perform_destroy (be : AuditBackend) (inst : Nat) : Except String Nat := do
  let deleted := inst
  let _ ← log_event be
  pure deleted

end AuditFlow

/- ## Theorems -/

section SoftDeleteTheorems

open SoftDelete

/-- C1: for every queryset, the soft-delete filter returns only rows whose
delete-timestamp is set when the effective `only_deleted` flag is truthy;
otherwise all rows (active and deleted) when the effective
`include_deleted` flag is truthy; otherwise only rows whose
delete-timestamp is unset; and when the current action is the restore
action the call behaves exactly as if `include_deleted="1"` had been
passed, regardless of the query flags. -/
theorem soft_delete_filter_semantics (qs : List Row)
    (qp : Option (List (String × String))) (act : Option String)
    (inc only : Option String) :
    (stripLower (effectiveFlag only qp "only_deleted") ∈ TRUTHY →
      ∀ r, r ∈ apply_soft_delete_filters qs qp act inc only ↔
        r ∈ qs ∧ r.deleted_at ≠ Option.none) ∧
    (stripLower (effectiveFlag only qp "only_deleted") ∉ TRUTHY →
     stripLower (effectiveFlag inc qp "include_deleted") ∈ TRUTHY →
      apply_soft_delete_filters qs qp act inc only = qs) ∧
    (stripLower (effectiveFlag only qp "only_deleted") ∉ TRUTHY →
     stripLower (effectiveFlag inc qp "include_deleted") ∉ TRUTHY →
     act.getD "" ≠ "restore" →
      ∀ r, r ∈ apply_soft_delete_filters qs qp act inc only ↔
        r ∈ qs ∧ r.deleted_at = Option.none) ∧
    (act.getD "" = "restore" →
      apply_soft_delete_filters qs qp act inc only =
        apply_soft_delete_filters qs qp Option.none (some "1") only) := by
  unfold apply_soft_delete_filters
  refine ⟨?_, ?_, ?_, ?_⟩
  · intro h r
    rw [if_pos h]
    simp [List.mem_filter, Option.isSome_iff_ne_none]
  · intro h1 h2
    rw [if_neg h1]
    by_cases ha : act.getD "" = "restore"
    · simp only [ha, if_pos]
      rw [if_pos (by decide : ("1" : String) ∈ TRUTHY)]
    · simp only [ha, if_neg, ite_false]
      rw [if_pos h2]
  · intro h1 h2 h3 r
    rw [if_neg h1]
    simp only [h3, ite_false]
    rw [if_neg h2]
    simp [List.mem_filter, Option.isNone_iff_eq_none]
  · intro ha
    simp only [ha, ite_true, effectiveFlag]
    have h1 : stripLower "1" = "1" := by decide
    simp [h1]

/-- Witness for `soft_delete_filter_semantics`: with `only_deleted="1"` a
soft-deleted row is in the result and the flag is truthy. -/
theorem soft_delete_filter_semantics_witness :
    stripLower (effectiveFlag (some "1") Option.none "only_deleted") ∈ TRUTHY ∧
    (⟨some 3⟩ : Row) ∈ apply_soft_delete_filters [⟨some 3⟩, ⟨Option.none⟩]
      Option.none Option.none Option.none (some "1") := by
  refine ⟨by decide, ?_⟩
  exact ((soft_delete_filter_semantics [⟨some 3⟩, ⟨Option.none⟩] Option.none
    Option.none Option.none (some "1")).1 (by decide) ⟨some 3⟩).mpr
    (by simp)

end SoftDeleteTheorems

section MaintenanceTheorems

open Dates Maintenance

/-- C7: the due-date calculator. In interval mode (with both parameters
present and non-zero) the result is Jan 1 of the reference year plus the
requested span minus one day, with month/year addition performed by
`add_months`; `add_months` always lands on a day that is valid for the
resulting month (the clamp); the three spec examples hold for reference
year 2025; fixed-date mode is exactly the guarded `date` constructor, so
an invalid combination like Feb 30 yields `None` for every year rather
than raising; and a missing parameter of the selected mode yields
`None`. -/
theorem due_date_calculator_correct :
    (∀ y ty v, y ≠ 0 → v ≠ 0 →
      (compute_next_due_date "interval" (some v) (some "days")
          Option.none Option.none (some y) ty
        = some (prevDay (addDays ⟨y, 1, 1⟩ v))) ∧
      (compute_next_due_date "interval" (some v) (some "weeks")
          Option.none Option.none (some y) ty
        = some (prevDay (addDays ⟨y, 1, 1⟩ (7 * v)))) ∧
      (compute_next_due_date "interval" (some v) (some "months")
          Option.none Option.none (some y) ty
        = some (prevDay (add_months ⟨y, 1, 1⟩ v))) ∧
      (compute_next_due_date "interval" (some v) (some "years")
          Option.none Option.none (some y) ty
        = some (prevDay (add_months ⟨y, 1, 1⟩ (12 * v))))) ∧
    (∀ dt k, 1 ≤ dt.m → dt.m ≤ 12 → 1 ≤ dt.d →
      1 ≤ (add_months dt k).m ∧ (add_months dt k).m ≤ 12 ∧
      1 ≤ (add_months dt k).d ∧
      (add_months dt k).d ≤ daysInMonth (add_months dt k).y (add_months dt k).m) ∧
    (compute_next_due_date "interval" (some 6) (some "months")
      Option.none Option.none (some 2025) 2024 = some ⟨2025, 6, 30⟩) ∧
    (compute_next_due_date "interval" (some 1) (some "years")
      Option.none Option.none (some 2025) 2024 = some ⟨2025, 12, 31⟩) ∧
    (compute_next_due_date "interval" (some 3) (some "months")
      Option.none Option.none (some 2025) 2024 = some ⟨2025, 3, 31⟩) ∧
    (∀ y ty, compute_next_due_date "fixed_date" Option.none Option.none
      (some 2) (some 30) (some y) ty = Option.none) ∧
    (∀ y ty fm fd, y ≠ 0 →
      compute_next_due_date "fixed_date" Option.none Option.none
        (some fm) (some fd) (some y) ty = mkDate? y fm fd) ∧
    (∀ iu fm fd ry ty, compute_next_due_date "interval" Option.none iu
      fm fd ry ty = Option.none) ∧
    (∀ iv fm fd ry ty, compute_next_due_date "interval" iv Option.none
      fm fd ry ty = Option.none) ∧
    (∀ iv iu fd ry ty, compute_next_due_date "fixed_date" iv iu
      Option.none fd ry ty = Option.none) ∧
    (∀ iv iu fm ry ty, compute_next_due_date "fixed_date" iv iu
      fm Option.none ry ty = Option.none) := by
  refine ⟨?_, ?_, by decide, by decide, by decide, ?_, ?_, ?_, ?_, ?_, ?_⟩
  · intro y ty v hy hv
    refine ⟨?_, ?_, ?_, ?_⟩ <;> simp [compute_next_due_date, hy, hv]
  · intro dt k h1 h2 h3
    have hm : (add_months dt k).m = (dt.m - 1 + k) % 12 + 1 := rfl
    have hyy : (add_months dt k).y = dt.y + (dt.m - 1 + k) / 12 := rfl
    have hd : (add_months dt k).d =
        min dt.d (daysInMonth (dt.y + (dt.m - 1 + k) / 12)
          ((dt.m - 1 + k) % 12 + 1)) := rfl
    have hmin : 1 ≤ daysInMonth (dt.y + (dt.m - 1 + k) / 12)
        ((dt.m - 1 + k) % 12 + 1) := by
      unfold daysInMonth
      split
      · split <;> omega
      · split <;> omega
    refine ⟨by rw [hm]; omega, by rw [hm]; omega, ?_, ?_⟩
    · rw [hd]; omega
    · rw [hd, hyy, hm]; omega
  · intro y ty
    by_cases hy : y = 0
    · simp only [compute_next_due_date, hy, ite_true]
      simp [mkDate?, validYMD, daysInMonth]
      intros
      split <;> omega
    · simp only [compute_next_due_date, hy, ite_false]
      simp [mkDate?, validYMD, daysInMonth, hy]
      intros
      split <;> omega
  · intro y ty fm fd hy
    simp only [compute_next_due_date]
    simp [hy]
    intro h
    rcases h with h | h <;> simp [mkDate?, validYMD, h]
  · intro iu fm fd ry ty
    cases iu <;> simp [compute_next_due_date]
  · intro iv fm fd ry ty
    cases iv <;> simp [compute_next_due_date]
  · intro iv iu fd ry ty
    simp [compute_next_due_date]
  · intro iv iu fm ry ty
    cases fm <;> simp [compute_next_due_date]

/-- Witness for `due_date_calculator_correct`: 6 months from reference year
2025 gives 2025-06-30 via the interval equation, and the clamp lands August
31 within range when adding 7 months to January 31. -/
theorem due_date_calculator_correct_witness :
    compute_next_due_date "interval" (some 6) (some "months")
      Option.none Option.none (some 2025) 2024
      = some (prevDay (add_months ⟨2025, 1, 1⟩ 6)) ∧
    1 ≤ (add_months ⟨2025, 1, 31⟩ 7).d ∧
    (add_months ⟨2025, 1, 31⟩ 7).d ≤
      daysInMonth (add_months ⟨2025, 1, 31⟩ 7).y (add_months ⟨2025, 1, 31⟩ 7).m := by
  refine ⟨?_, ?_, ?_⟩
  · exact (due_date_calculator_correct.1 2025 2024 6 (by decide) (by decide)).2.2.1
  · exact (due_date_calculator_correct.2.1 ⟨2025, 1, 31⟩ 7 (by decide)
      (by decide) (by decide)).2.2.1
  · exact (due_date_calculator_correct.2.1 ⟨2025, 1, 31⟩ 7 (by decide)
      (by decide) (by decide)).2.2.2

/-- C8: after a recorded maintenance event, `_recalculate_plan_due_date`
never moves `next_due_date` backward: the plan is updated only when the
newly computed date is strictly later than the current one, in which case
the new value is exactly the computed date; otherwise (no computed date,
or a computed date not strictly later) the plan is unchanged. -/
theorem plan_due_date_monotone (plan : Plan) (py ty : Nat) :
    dateLE plan.next_due_date
      (recalculate_plan_due_date plan py ty).next_due_date ∧
    (compute_next_due_date plan.schedule_type plan.interval_value
        plan.interval_unit plan.fixed_month plan.fixed_day
        (some (py + 1)) ty = Option.none →
      recalculate_plan_due_date plan py ty = plan) ∧
    (∀ nd, compute_next_due_date plan.schedule_type plan.interval_value
        plan.interval_unit plan.fixed_month plan.fixed_day
        (some (py + 1)) ty = some nd → ¬ dateLT plan.next_due_date nd →
      recalculate_plan_due_date plan py ty = plan) ∧
    (∀ nd, compute_next_due_date plan.schedule_type plan.interval_value
        plan.interval_unit plan.fixed_month plan.fixed_day
        (some (py + 1)) ty = some nd → dateLT plan.next_due_date nd →
      (recalculate_plan_due_date plan py ty).next_due_date = nd) := by
  unfold recalculate_plan_due_date
  cases hc : compute_next_due_date plan.schedule_type plan.interval_value
      plan.interval_unit plan.fixed_month plan.fixed_day
      (some (py + 1)) ty with
  | none =>
    refine ⟨Or.inr rfl, fun _ => rfl, fun nd h => by simp at h ⊢, fun nd h => by simp at h⟩
  | some nd =>
    by_cases hlt : dateLT plan.next_due_date nd
    · refine ⟨?_, by intro h; simp at h, ?_, ?_⟩
      · simp only [hlt, if_pos]
        exact Or.inl hlt
      · intro nd2 h hn
        injection h with h
        subst h
        exact absurd hlt hn
      · intro nd2 h _
        injection h with h
        subst h
        simp [hlt]
    · refine ⟨?_, by intro h; simp at h, ?_, ?_⟩
      · simp only [hlt, if_neg, ite_false]
        exact Or.inr rfl
      · intro nd2 h _
        simp [hlt]
      · intro nd2 h hl
        injection h with h
        subst h
        exact absurd hl hlt

/-- Witness for `plan_due_date_monotone`: a 6-monthly plan whose event was
performed in 2024 jumps from 2024-12-31 to 2025-06-30, and the move is
forward. -/
theorem plan_due_date_monotone_witness :
    dateLE (⟨2024, 12, 31⟩ : Date)
      (recalculate_plan_due_date
        ⟨"interval", some 6, some "months", Option.none, Option.none,
          ⟨2024, 12, 31⟩⟩ 2024 0).next_due_date ∧
    (recalculate_plan_due_date
      ⟨"interval", some 6, some "months", Option.none, Option.none,
        ⟨2024, 12, 31⟩⟩ 2024 0).next_due_date = ⟨2025, 6, 30⟩ := by
  constructor
  · exact (plan_due_date_monotone
      ⟨"interval", some 6, some "months", Option.none, Option.none,
        ⟨2024, 12, 31⟩⟩ 2024 0).1
  · exact (plan_due_date_monotone
      ⟨"interval", some 6, some "months", Option.none, Option.none,
        ⟨2024, 12, 31⟩⟩ 2024 0).2.2.2 ⟨2025, 6, 30⟩ (by decide) (by decide)

end MaintenanceTheorems

section AuditTheorems

open Audit

/-- Helper: a sensitive-named field's non-empty value masks to the
placeholder. -/
theorem tcvff_masks_nonempty (f : String) (v : AVal) (hf : f ≠ "")
    (hs : sensitive_field f = true) (hv : isEmptyish v = false) :
    to_change_value_for_field f v = AVal.str "••••" := by
  cases v <;> simp_all [to_change_value_for_field, isEmptyish]

/-- Helper: a sensitive-named field's empty value becomes `None`. -/
theorem tcvff_empty_to_null (f : String) (v : AVal) (hf : f ≠ "")
    (hs : sensitive_field f = true) (hv : isEmptyish v = true) :
    to_change_value_for_field f v = AVal.null := by
  cases v <;> simp_all [to_change_value_for_field, isEmptyish]

/-- C5 counterexample: in `diff_fields`, a field named `os_pwd` changing
from `"old"` to `"new"` is NOT recorded as a masked from/to pair — both
sides are masked to the identical placeholder before the comparison, so
the diff is empty at this input. -/
theorem masked_diff_drops_changed_secret :
    diff_fields [("os_pwd", AVal.str "old")] [("os_pwd", AVal.str "new")]
        ["os_pwd"]
      ≠ [("os_pwd", (AVal.str "••••", AVal.str "••••"))] ∧
    diff_fields [("os_pwd", AVal.str "old")] [("os_pwd", AVal.str "new")]
        ["os_pwd"] = [] := by
  have h : diff_fields [("os_pwd", AVal.str "old")]
      [("os_pwd", AVal.str "new")] ["os_pwd"] = [] := by
    simp [diff_fields, getattrD, dictGet, to_change_value_for_field,
      sensitive_field, pyLower, asciiLowerChar, strContains, listContainsSub,
      listIsPrefixOf, pyEq, numVal?]
  exact ⟨by rw [h]; simp, h⟩

/-- C5 (amended): every sensitive-named field's non-empty value is replaced
by the fixed placeholder on both sides and an empty/`None` value becomes
`None`; but in `diff_fields` a sensitive field whose values are non-empty
on both sides masks to the identical placeholder and is therefore omitted
from the diff; the `{from: placeholder, to: placeholder}` record of the
spec's `os_pwd` example is produced by the serializer-validated diff
(`_changes_from_validated`), which compares the unmasked primitive
values. -/
theorem sensitive_field_masking (f : String) (v : AVal)
    (before after : List (String × AVal)) :
    (f ≠ "" → sensitive_field f = true → isEmptyish v = false →
      to_change_value_for_field f v = AVal.str "••••") ∧
    (f ≠ "" → sensitive_field f = true → isEmptyish v = true →
      to_change_value_for_field f v = AVal.null) ∧
    (f ≠ "" → sensitive_field f = true →
      isEmptyish (getattrD before f) = false →
      isEmptyish (getattrD after f) = false →
      diff_fields before after [f] = []) ∧
    (changes_from_validated [("os_pwd", AVal.str "old")]
        [("os_pwd", AVal.str "new")]
      = [("os_pwd", (AVal.str "••••", AVal.str "••••"))]) := by
  refine ⟨tcvff_masks_nonempty f v, tcvff_empty_to_null f v, ?_, ?_⟩
  · intro hf hs hb ha
    have h1 := tcvff_masks_nonempty f (getattrD before f) hf hs hb
    have h2 := tcvff_masks_nonempty f (getattrD after f) hf hs ha
    simp [diff_fields, h1, h2, pyEq, numVal?]
  · simp [changes_from_validated, getattrD, dictGet, to_primitive,
      to_change_value_for_field, sensitive_field, pyLower, asciiLowerChar,
      strContains, listContainsSub, listIsPrefixOf, pyEq, numVal?,
      dictInsert]

/-- Witness for `sensitive_field_masking`: at `f = "os_pwd"`,
`v = "hunter2"`, `w = None`, a masked placeholder, a `None`, and the empty
single-field diff all come out as stated. -/
theorem sensitive_field_masking_witness :
    to_change_value_for_field "os_pwd" (AVal.str "hunter2") = AVal.str "••••" ∧
    to_change_value_for_field "os_pwd" AVal.null = AVal.null ∧
    diff_fields [("os_pwd", AVal.str "a")] [("os_pwd", AVal.str "b")]
      ["os_pwd"] = [] := by
  refine ⟨?_, ?_, ?_⟩
  · exact (sensitive_field_masking "os_pwd" (AVal.str "hunter2")
      [] []).1 (by decide) (by decide) (by decide)
  · exact (sensitive_field_masking "os_pwd" AVal.null
      [] []).2.1 (by decide) (by decide) (by decide)
  · exact (sensitive_field_masking "os_pwd" AVal.null
      [("os_pwd", AVal.str "a")] [("os_pwd", AVal.str "b")]).2.2.1
      (by decide) (by decide) (by decide) (by decide)

/-- C6 counterexample: a nested key matching the sensitive pattern is NOT
masked: a non-sensitive field `config` holding `{"password": "hunter2"}`
keeps the nested plaintext value in the audit change value. -/
theorem nested_secret_kept_in_clear :
    to_change_value_for_field "config"
        (AVal.dict [("password", AVal.str "hunter2")])
      = AVal.dict [("password", AVal.str "hunter2")] := by
  simp [to_change_value_for_field, sensitive_field, pyLower, asciiLowerChar,
    strContains, listContainsSub, listIsPrefixOf, to_change_value,
    to_change_value_dict]

/-- C6 (amended): when an audit-diff value is a nested object its entries
are walked recursively, but by the plain converter `to_change_value`,
which preserves scalar values verbatim and does not re-apply the
sensitive-keyword check to nested keys: a nested key matching the pattern
keeps its value converted, not masked. -/
theorem nested_keys_walked_without_keyword_check (k : String) (v : AVal)
    (f s : String) :
    (to_change_value (AVal.dict [(k, v)]) = AVal.dict [(k, to_change_value v)]) ∧
    (to_change_value (AVal.str s) = AVal.str s) ∧
    (f ≠ "" → sensitive_field f = false → sensitive_field k = true →
      to_change_value_for_field f (AVal.dict [(k, AVal.str s)])
        = AVal.dict [(k, AVal.str s)]) := by
  refine ⟨?_, ?_, ?_⟩
  · simp [to_change_value, to_change_value_dict]
  · simp [to_change_value]
  · intro hf hns hs
    simp [to_change_value_for_field, hns, to_change_value, to_change_value_dict]

/-- Witness for `nested_keys_walked_without_keyword_check`: the `config`
field of the counterexample, with nested sensitive key `password`. -/
theorem nested_keys_walked_witness :
    to_change_value_for_field "config"
        (AVal.dict [("password", AVal.str "x")])
      = AVal.dict [("password", AVal.str "x")] :=
  (nested_keys_walked_without_keyword_check "password" AVal.null "config"
    "x").2.2 (by decide) (by decide) (by decide)

end AuditTheorems

section AuditFlowTheorems

open AuditFlow

/-- C9 counterexample: on the entity-create path, a failure while appending
the audit event is not swallowed — `perform_create` propagates the error
and the primary operation does not complete. -/
theorem entity_create_audit_failure_propagates :
    perform_create ⟨false⟩ 42 = Except.error "database error" ∧
    perform_create ⟨false⟩ 42 ≠ Except.ok 42 := by
  constructor <;> simp [perform_create, log_event, audit_event_create]

/-- C9 (amended): audit-append failures are swallowed on the authentication
paths — `log_auth_attempt` never raises, and login/logout complete for
every backend state — while the entity write paths (`perform_create`,
`perform_destroy`, and the identically shaped update/restore handlers)
call `log_event` unguarded, so they complete exactly when the audit append
succeeds and otherwise propagate the failure. -/
theorem audit_failures_swallowed_only_on_auth_paths (be : AuditBackend)
    (i : Nat) :
    (logout_view be = Except.ok 200) ∧
    (login_view be = Except.ok 200) ∧
    ((log_auth_attempt be).isSome ∨ log_auth_attempt be = Option.none) ∧
    (perform_create be i = Except.ok i ↔ be.append_ok = true) ∧
    (be.append_ok = false →
      perform_create be i = Except.error "database error") ∧
    (be.append_ok = false →
      perform_destroy be i = Except.error "database error") := by
  cases be with
  | mk ok =>
    cases ok <;>
      simp [logout_view, login_view, audit_login_signal, log_auth_attempt,
        log_event, audit_event_create, perform_create, perform_destroy]

/-- Witness for `audit_failures_swallowed_only_on_auth_paths`: with a
failing audit backend, logout still completes while the entity create
fails. -/
theorem audit_failures_swallowed_witness :
    logout_view ⟨false⟩ = Except.ok 200 ∧
    perform_create ⟨false⟩ 7 = Except.error "database error" := by
  constructor
  · exact (audit_failures_swallowed_only_on_auth_paths ⟨false⟩ 7).1
  · exact (audit_failures_swallowed_only_on_auth_paths ⟨false⟩ 7).2.2.2.2.1 rfl

end AuditFlowTheorems

section DictLemmas

/-- Lookup after insertion: the inserted key reads back the new value and
every other key is unaffected. -/
theorem dictGet_insert {α : Type} (m : List (String × α)) (k : String) (v : α)
    (n : String) :
    dictGet (dictInsert m k v) n = if n = k then some v else dictGet m n := by
  induction m with
  | nil =>
    simp only [dictInsert, dictGet]
    by_cases h : n = k
    · subst h; simp
    · simp [h, Ne.symm h]
  | cons p rest ih =>
    simp only [dictInsert]
    by_cases hp : p.1 = k
    · by_cases h : n = k
      · subst h; simp [dictGet, hp]
      · simp [dictGet, h, Ne.symm h, hp]
    · by_cases h : p.1 = n
      · have hnk : ¬ n = k := fun hh => hp (h.trans hh)
        simp [dictGet, hp, h, hnk]
      · simp [dictGet, hp, h, ih]

/-- The inserted pair is an entry of the result. -/
theorem mem_dictInsert_self {α : Type} (m : List (String × α)) (k : String)
    (v : α) : (k, v) ∈ dictInsert m k v := by
  induction m with
  | nil => simp [dictInsert]
  | cons p rest ih =>
    by_cases hp : p.1 = k
    · simp [dictInsert, hp]
    · simp only [dictInsert, hp, ite_false, if_neg]
      exact List.mem_cons_of_mem p ih

/-- Entries with a different key survive an insertion. -/
theorem mem_dictInsert_of_ne {α : Type} {m : List (String × α)}
    {e : String × α} (k : String) (v : α) (he : e ∈ m) (hk : e.1 ≠ k) :
    e ∈ dictInsert m k v := by
  induction m with
  | nil => cases he
  | cons p rest ih =>
    by_cases hp : p.1 = k
    · simp only [dictInsert, hp, ite_true, if_pos]
      rcases List.mem_cons.mp he with h | h
      · subst h; exact absurd hp hk
      · exact List.mem_cons_of_mem _ h
    · simp only [dictInsert, hp, ite_false, if_neg]
      rcases List.mem_cons.mp he with h | h
      · subst h; exact List.mem_cons_self _ _
      · exact List.mem_cons_of_mem _ (ih h)

/-- Insertion never yields the empty dict. -/
theorem dictInsert_ne_nil {α : Type} (m : List (String × α)) (k : String)
    (v : α) : dictInsert m k v ≠ [] := by
  cases m with
  | nil => simp [dictInsert]
  | cons p rest =>
    by_cases hp : p.1 = k <;> simp [dictInsert, hp]

/-- Lookup after removal: the removed key reads back nothing and every
other key is unaffected. -/
theorem dictGet_remove {α : Type} (m : List (String × α)) (k n : String) :
    dictGet (dictRemove m k) n =
      if n = k then Option.none else dictGet m n := by
  induction m with
  | nil => simp [dictRemove, dictGet]
  | cons p rest ih =>
    by_cases hp : p.1 = k
    · rw [show dictRemove (p :: rest) k = dictRemove rest k by
        simp [dictRemove, List.filter_cons, hp]]
      rw [ih]
      by_cases h : n = k
      · simp [h]
      · rw [if_neg h, if_neg h, dictGet,
          if_neg (by rw [hp]; exact fun hh => h hh.symm)]
    · rw [show dictRemove (p :: rest) k = p :: dictRemove rest k by
        simp [dictRemove, List.filter_cons, hp]]
      by_cases h : p.1 = n
      · have hnk : ¬ n = k := fun hh => hp (h.trans hh)
        rw [dictGet, if_pos h, if_neg hnk, dictGet, if_pos h]
      · rw [dictGet, if_neg h, ih, dictGet, if_neg h]

/-- Lookup through concatenation: the left dict wins. -/
theorem dictGet_append {α : Type} (m1 m2 : List (String × α)) (n : String) :
    dictGet (m1 ++ m2) n =
      match dictGet m1 n with
      | some v => some v
      | Option.none => dictGet m2 n := by
  induction m1 with
  | nil => simp [dictGet]
  | cons p rest ih =>
    by_cases h : p.1 = n <;> simp [dictGet, h, ih]

end DictLemmas

section CustomFieldsC2

open CustomFields

/-- Lookup after folding constant-value insertions over a list of keys. -/
theorem dictGet_foldl_insert_const (l : List String) (v : String)
    (m : List (String × String)) (n : String) :
    dictGet (l.foldl (fun m a => dictInsert m a v) m) n =
      if n ∈ l then some v else dictGet m n := by
  induction l generalizing m with
  | nil => simp
  | cons a as ih =>
    simp only [List.foldl_cons]
    rw [ih]
    by_cases hn : n ∈ as
    · simp [hn]
    · by_cases ha : n = a
      · simp [hn, ha, dictGet_insert]
      · simp [hn, ha, dictGet_insert]

/-- Lookup in the alias entries contributed by one definition: a spelling
contributed by `d` maps to `d.key`, anything else falls through. -/
theorem dictGet_addDefToAliasMap (m : List (String × String)) (d : FieldDef)
    (n : String) :
    dictGet (addDefToAliasMap m d) n =
      if n = norm_key d.key ∨ n ∈ (d.aliases.getD []).map norm_key
      then some d.key else dictGet m n := by
  unfold addDefToAliasMap
  rw [← List.foldl_map (f := norm_key)
    (g := fun m a => dictInsert m a d.key)]
  rw [dictGet_foldl_insert_const]
  by_cases hn : n ∈ (d.aliases.getD []).map norm_key
  · simp [hn]
  · by_cases hk : n = norm_key d.key
    · simp [hn, hk, dictGet_insert]
    · simp [hn, hk, dictGet_insert]

/-- A spelling matched by no definition falls through the whole alias
map. -/
theorem alias_lookup_none (defs : List FieldDef) (m0 : List (String × String))
    (n : String) (h : ∀ d ∈ defs, ¬ defMatchesNorm d n) :
    dictGet (defs.foldl addDefToAliasMap m0) n = dictGet m0 n := by
  induction defs generalizing m0 with
  | nil => rfl
  | cons d rest ih =>
    simp only [List.foldl_cons]
    rw [ih _ (fun d2 hd2 => h d2 (List.mem_cons_of_mem d hd2))]
    rw [dictGet_addDefToAliasMap]
    have hd := h d (List.mem_cons_self d rest)
    rw [if_neg]
    intro hc
    apply hd
    rcases hc with hc | hc
    · exact Or.inl hc
    · rcases List.mem_map.mp hc with ⟨a, ha, hna⟩
      exact Or.inr ⟨a, ha, hna.symm⟩

/-- A spelling matched by some definition resolves to the canonical key of
a matching definition. -/
theorem alias_lookup_match (defs : List FieldDef) (m0 : List (String × String))
    (n : String) (h : ∃ d ∈ defs, defMatchesNorm d n) :
    ∃ d ∈ defs, defMatchesNorm d n ∧
      dictGet (defs.foldl addDefToAliasMap m0) n = some d.key := by
  induction defs generalizing m0 with
  | nil => rcases h with ⟨d, hd, _⟩; cases hd
  | cons d rest ih =>
    by_cases hr : ∃ d2 ∈ rest, defMatchesNorm d2 n
    · rcases ih (addDefToAliasMap m0 d) hr with ⟨d2, hd2, hm2, he2⟩
      exact ⟨d2, List.mem_cons_of_mem d hd2, hm2, by simpa using he2⟩
    · have hd : defMatchesNorm d n := by
        rcases h with ⟨d2, hd2, hm2⟩
        rcases List.mem_cons.mp hd2 with h2 | h2
        · subst h2; exact hm2
        · exact absurd ⟨d2, h2, hm2⟩ hr
      refine ⟨d, List.mem_cons_self d rest, hd, ?_⟩
      simp only [List.foldl_cons]
      rw [alias_lookup_none rest _ n
        (fun d2 hd2 hm2 => hr ⟨d2, hd2, hm2⟩)]
      rw [dictGet_addDefToAliasMap]
      rw [if_pos]
      rcases hd with hc | ⟨a, ha, hna⟩
      · exact Or.inl hc
      · exact Or.inr (List.mem_map.mpr ⟨a, ha, hna.symm⟩)

/-- C2: alias canonicalization. Over any definition list with non-empty
canonical keys: an incoming key whose normalized spelling matches no
definition is kept verbatim with its value; an incoming key whose
normalized spelling matches some definition is rewritten to the canonical
key of a matching definition; and the spec's round-trip holds: with a
definition `citta` aliased `city`, submitting `{"city": "Roma"}`
normalizes to `{"citta": "Roma"}`. -/
theorem alias_canonicalization (defs : List FieldDef) (k : String) (v : JVal)
    (hkeys : ∀ d ∈ defs, d.key ≠ "") :
    ((∀ d ∈ defs, ¬ defMatchesNorm d (norm_key k)) →
      canonicalizeIncoming (get_definition_maps defs) [] [(k, v)] = [(k, v)]) ∧
    ((∃ d ∈ defs, defMatchesNorm d (norm_key k)) →
      ∃ d ∈ defs, defMatchesNorm d (norm_key k) ∧
        canonicalizeIncoming (get_definition_maps defs) [] [(k, v)]
          = [(d.key, v)]) ∧
    (normalize_and_validate_custom_fields
        [⟨"citta", FieldType.text, false, Option.none, some ["city"]⟩]
        (some (.obj [("city", .str "Roma")])) Option.none false
      = .ok (some [("citta", .str "Roma")])) := by
  refine ⟨?_, ?_, by rfl⟩
  · intro h
    unfold canonicalizeIncoming
    simp only [List.foldl_cons, List.foldl_nil]
    unfold canonicalizeStep
    rw [show (get_definition_maps defs).alias_to_key
        = defs.foldl addDefToAliasMap [] from rfl]
    rw [alias_lookup_none defs [] (norm_key k) h]
    rfl
  · intro h
    rcases alias_lookup_match defs [] (norm_key k) h with ⟨d, hd, hm, he⟩
    refine ⟨d, hd, hm, ?_⟩
    unfold canonicalizeIncoming
    simp only [List.foldl_cons, List.foldl_nil]
    unfold canonicalizeStep
    rw [show (get_definition_maps defs).alias_to_key
        = defs.foldl addDefToAliasMap [] from rfl]
    rw [he]
    simp [hkeys d hd, dictInsert]

/-- Witness for `alias_canonicalization`: both directions at the `citta`
definition — `"city"` is rewritten, `"color"` is kept verbatim. -/
theorem alias_canonicalization_witness :
    (canonicalizeIncoming
      (get_definition_maps
        [⟨"citta", FieldType.text, false, Option.none, some ["city"]⟩])
      [] [("color", .str "x")] = [("color", .str "x")]) ∧
    ∃ d ∈ [(⟨"citta", FieldType.text, false, Option.none, some ["city"]⟩ :
        FieldDef)], defMatchesNorm d (norm_key "city") ∧
      canonicalizeIncoming
        (get_definition_maps
          [⟨"citta", FieldType.text, false, Option.none, some ["city"]⟩])
        [] [("city", .str "Roma")] = [(d.key, .str "Roma")] := by
  constructor
  · exact (alias_canonicalization
      [⟨"citta", FieldType.text, false, Option.none, some ["city"]⟩]
      "color" (.str "x") (by decide)).1 (by decide)
  · exact (alias_canonicalization
      [⟨"citta", FieldType.text, false, Option.none, some ["city"]⟩]
      "city" (.str "Roma") (by decide)).2.1 (by decide)

end CustomFieldsC2

section CustomFieldsValidationLemmas

open CustomFields

/-- Elements of an inserted dict either come from the original dict or
carry the inserted key. -/
theorem mem_dictInsert_elim {α : Type} {m : List (String × α)}
    {e : String × α} {k : String} {v : α} (he : e ∈ dictInsert m k v) :
    e ∈ m ∨ e.1 = k := by
  induction m with
  | nil =>
    simp only [dictInsert, List.mem_singleton] at he
    subst he; exact Or.inr rfl
  | cons p rest ih =>
    by_cases hp : p.1 = k
    · simp only [dictInsert, hp, ite_true, if_pos, List.mem_cons] at he
      rcases he with he | he
      · subst he; exact Or.inr rfl
      · exact Or.inl (List.mem_cons_of_mem _ he)
    · simp only [dictInsert, hp, ite_false, if_neg, List.mem_cons] at he
      rcases he with he | he
      · exact Or.inl (by simp [he])
      · rcases ih he with h | h
        · exact Or.inl (List.mem_cons_of_mem _ h)
        · exact Or.inr h

/-- When a definition records a message, that message ends up under the
definition's key in the step's error dict. -/
theorem stepErrors_mem (kd : String × FieldDef) (val : JVal)
    (errors : List (String × String)) (msg : String)
    (h : fieldMsg kd.2 val = some msg) :
    (kd.1, msg) ∈ stepErrors kd val errors := by
  unfold fieldMsg at h
  unfold stepErrors
  by_cases hreq : kd.2.required ∧ isNoneOrBlankStr (coerceForDef kd.2 val).1
  · simp only [hreq, if_pos, ite_true] at h ⊢
    injection h with h
    subst h
    exact mem_dictInsert_self _ _ _
  · simp only [hreq, if_neg, ite_false] at h ⊢
    rw [h]
    exact mem_dictInsert_self _ _ _

/-- Entries under other keys survive one step of the error collection. -/
theorem stepErrors_preserves (kd : String × FieldDef) (val : JVal)
    (errors : List (String × String)) (e : String × String)
    (he : e ∈ errors) (hk : e.1 ≠ kd.1) :
    e ∈ stepErrors kd val errors := by
  unfold stepErrors
  have h1 : e ∈ (match (coerceForDef kd.2 val).2 with
      | some msg => dictInsert errors kd.1 msg
      | Option.none => errors) := by
    cases (coerceForDef kd.2 val).2 with
    | none => exact he
    | some m => exact mem_dictInsert_of_ne _ _ he hk
  by_cases hreq : kd.2.required ∧ isNoneOrBlankStr (coerceForDef kd.2 val).1
  · simp only [hreq, ite_true, if_pos]
    exact mem_dictInsert_of_ne _ _ h1 hk
  · simp only [hreq, ite_false, if_neg]
    exact h1

/-- Elements of the step's error dict either come from the incoming error
dict or carry the step's key. -/
theorem stepErrors_elim {kd : String × FieldDef} {val : JVal}
    {errors : List (String × String)} {e : String × String}
    (he : e ∈ stepErrors kd val errors) : e ∈ errors ∨ e.1 = kd.1 := by
  unfold stepErrors at he
  by_cases hreq : kd.2.required ∧ isNoneOrBlankStr (coerceForDef kd.2 val).1
  · simp only [hreq, ite_true, if_pos] at he
    rcases mem_dictInsert_elim he with h | h
    · cases hc : (coerceForDef kd.2 val).2 with
      | none => rw [hc] at h; exact Or.inl h
      | some m =>
        rw [hc] at h
        rcases mem_dictInsert_elim h with h2 | h2
        · exact Or.inl h2
        · exact Or.inr h2
    · exact Or.inr h
  · simp only [hreq, ite_false, if_neg] at he
    cases hc : (coerceForDef kd.2 val).2 with
    | none => rw [hc] at he; exact Or.inl he
    | some m =>
      rw [hc] at he
      rcases mem_dictInsert_elim he with h | h
      · exact Or.inl h
      · exact Or.inr h

/-- A definition that records no message leaves the error dict unchanged. -/
theorem stepErrors_none (kd : String × FieldDef) (val : JVal)
    (errors : List (String × String)) (h : fieldMsg kd.2 val = Option.none) :
    stepErrors kd val errors = errors := by
  unfold fieldMsg at h
  unfold stepErrors
  by_cases hreq : kd.2.required ∧ isNoneOrBlankStr (coerceForDef kd.2 val).1
  · simp only [hreq, ite_true, if_pos] at h
    cases h
  · simp only [hreq, ite_false, if_neg] at h ⊢
    rw [h]

/-- One step never empties a non-empty error dict. -/
theorem stepErrors_ne_nil (kd : String × FieldDef) (val : JVal)
    (errors : List (String × String)) (h : errors ≠ []) :
    stepErrors kd val errors ≠ [] := by
  unfold stepErrors
  by_cases hreq : kd.2.required ∧ isNoneOrBlankStr (coerceForDef kd.2 val).1
  · simp only [hreq, ite_true, if_pos]
    exact dictInsert_ne_nil _ _ _
  · simp only [hreq, ite_false, if_neg]
    cases (coerceForDef kd.2 val).2 with
    | none => exact h
    | some m => exact dictInsert_ne_nil _ _ _

/-- Error entries whose key the loop never touches survive the whole
validation loop. -/
theorem validateAll_preserves (dbk : List (String × FieldDef))
    (normalized : List (String × JVal)) (errors : List (String × String))
    (e : String × String) (he : e ∈ errors)
    (hk : e.1 ∉ dbk.map Prod.fst) :
    e ∈ (validateAll dbk normalized errors).2 := by
  induction dbk generalizing normalized errors with
  | nil => simpa [validateAll] using he
  | cons kd rest ih =>
    simp only [List.map_cons, List.mem_cons, not_or] at hk
    exact ih _ _ (stepErrors_preserves kd _ errors e he hk.1) hk.2

/-- The validation loop never empties a non-empty error dict. -/
theorem validateAll_ne_nil (dbk : List (String × FieldDef))
    (normalized : List (String × JVal)) (errors : List (String × String))
    (h : errors ≠ []) : (validateAll dbk normalized errors).2 ≠ [] := by
  induction dbk generalizing normalized errors with
  | nil => simpa [validateAll] using h
  | cons kd rest ih => exact ih _ _ (stepErrors_ne_nil kd _ errors h)

/-- Completeness of error collection: under unique keys, every definition
whose value yields a message has that message recorded under its key in
the final error dict. -/
theorem validateAll_mem (dbk : List (String × FieldDef))
    (normalized : List (String × JVal)) (errors : List (String × String))
    (kd : String × FieldDef) (msg : String)
    (hnd : (dbk.map Prod.fst).Nodup) (hkd : kd ∈ dbk)
    (hne : ∀ e ∈ errors, e.1 ≠ kd.1)
    (hmsg : fieldMsg kd.2 ((dictGet normalized kd.1).getD .null) = some msg) :
    (kd.1, msg) ∈ (validateAll dbk normalized errors).2 := by
  induction dbk generalizing normalized errors with
  | nil => cases hkd
  | cons kd0 rest ih =>
    rw [List.map_cons, List.nodup_cons] at hnd
    rcases List.mem_cons.mp hkd with hh | hh
    · subst hh
      have hmem := stepErrors_mem kd _ errors msg hmsg
      unfold validateAll
      exact validateAll_preserves rest _ _ _ hmem hnd.1
    · have hk01 : kd.1 ≠ kd0.1 := by
        intro hc
        exact hnd.1 (hc ▸ List.mem_map.mpr ⟨kd, hh, rfl⟩)
      unfold validateAll
      apply ih _ _ hnd.2 hh
      · intro e he
        rcases stepErrors_elim he with h | h
        · exact hne e h
        · rw [h]; exact fun hc => hk01 hc.symm
      · rw [dictGet_insert, if_neg hk01]
        exact hmsg

/-- Soundness of error collection: under unique keys, when no definition
yields a message the loop returns the error dict unchanged. -/
theorem validateAll_no_errors (dbk : List (String × FieldDef))
    (normalized : List (String × JVal)) (errors : List (String × String))
    (hnd : (dbk.map Prod.fst).Nodup)
    (h : ∀ kd ∈ dbk,
      fieldMsg kd.2 ((dictGet normalized kd.1).getD .null) = Option.none) :
    (validateAll dbk normalized errors).2 = errors := by
  induction dbk generalizing normalized errors with
  | nil => rfl
  | cons kd0 rest ih =>
    rw [List.map_cons, List.nodup_cons] at hnd
    unfold validateAll
    rw [stepErrors_none kd0 _ errors (h kd0 (List.mem_cons_self kd0 rest))]
    apply ih _ _ hnd.2
    intro kd hkd
    have hk01 : kd.1 ≠ kd0.1 := by
      intro hc
      exact hnd.1 (hc ▸ List.mem_map.mpr ⟨kd, hkd, rfl⟩)
    rw [dictGet_insert, if_neg hk01]
    exact h kd (List.mem_cons_of_mem kd0 hkd)

/-- Insertion of a fresh key appends. -/
theorem dictInsert_eq_append {α : Type} (m : List (String × α)) (k : String)
    (v : α) (h : dictGet m k = Option.none) :
    dictInsert m k v = m ++ [(k, v)] := by
  induction m with
  | nil => rfl
  | cons p rest ih =>
    rw [dictGet] at h
    by_cases hp : p.1 = k
    · rw [if_pos hp] at h; cases h
    · rw [if_neg hp] at h
      simp only [dictInsert, hp, ite_false, if_neg, List.cons_append,
        List.cons.injEq, true_and]
      exact ih h

/-- Under unique keys, `defs_by_key` is the definition list paired with its
keys, in order. -/
theorem defs_by_key_go (defs : List FieldDef) (m : List (String × FieldDef))
    (hnd : (defs.map (fun d => d.key)).Nodup)
    (hm : ∀ d ∈ defs, dictGet m d.key = Option.none) :
    defs.foldl (fun m d => dictInsert m d.key d) m
      = m ++ defs.map (fun d => (d.key, d)) := by
  induction defs generalizing m with
  | nil => simp
  | cons d rest ih =>
    rw [List.map_cons, List.nodup_cons] at hnd
    simp only [List.foldl_cons, List.map_cons]
    rw [dictInsert_eq_append m d.key d (hm d (List.mem_cons_self d rest))]
    have hm2 : ∀ d2 ∈ rest, dictGet (m ++ [(d.key, d)]) d2.key
        = Option.none := by
      intro d2 hd2
      rw [dictGet_append, hm d2 (List.mem_cons_of_mem d hd2)]
      have hne : d.key ≠ d2.key := by
        intro hc
        exact hnd.1 (hc ▸ List.mem_map.mpr ⟨d2, hd2, rfl⟩)
      simp only [dictGet]
      rw [if_neg hne]
    rw [ih (m ++ [(d.key, d)]) hnd.2 hm2]
    simp

/-- `defs_by_key` under the uniqueness invariant of (entity, key). -/
theorem defs_by_key_eq (defs : List FieldDef)
    (hnd : (defs.map (fun d => d.key)).Nodup) :
    (get_definition_maps defs).defs_by_key
      = defs.map (fun d => (d.key, d)) := by
  unfold get_definition_maps
  simpa using defs_by_key_go defs [] hnd (by intro d _; rfl)

end CustomFieldsValidationLemmas

section CustomFieldsClaims

open CustomFields

/-- The validator raises `{"custom_fields": errs}` exactly when the error
dict collected over all definitions is non-empty, and then `errs` is that
whole dict. -/
theorem normalize_error_iff (defs : List FieldDef)
    (kvs : List (String × JVal)) (existing : Option (List (String × JVal)))
    (pu : Bool) (errs : List (String × String)) :
    normalize_and_validate_custom_fields defs (some (.obj kvs)) existing pu
        = .error (.fields errs) ↔
      errs = (validateAll (get_definition_maps defs).defs_by_key
        (canonicalizeIncoming (get_definition_maps defs)
          (if pu then existing.getD [] else []) kvs) []).2 ∧
      errs ≠ [] := by
  show (if ¬ (validateAll (get_definition_maps defs).defs_by_key
          (canonicalizeIncoming (get_definition_maps defs)
            (if pu then existing.getD [] else []) kvs) []).2.isEmpty then
        Except.error (VErr.fields
          (validateAll (get_definition_maps defs).defs_by_key
            (canonicalizeIncoming (get_definition_maps defs)
              (if pu then existing.getD [] else []) kvs) []).2)
      else
        if (cleanOptionalEmpty (get_definition_maps defs).defs_by_key
            (validateAll (get_definition_maps defs).defs_by_key
              (canonicalizeIncoming (get_definition_maps defs)
                (if pu then existing.getD [] else []) kvs) []).1).isEmpty
        then Except.ok Option.none
        else Except.ok (some (cleanOptionalEmpty
          (get_definition_maps defs).defs_by_key
          (validateAll (get_definition_maps defs).defs_by_key
            (canonicalizeIncoming (get_definition_maps defs)
              (if pu then existing.getD [] else []) kvs) []).1)))
      = .error (.fields errs) ↔ _
  by_cases he : (validateAll (get_definition_maps defs).defs_by_key
      (canonicalizeIncoming (get_definition_maps defs)
        (if pu then existing.getD [] else []) kvs) []).2 = []
  · rw [if_neg (by simp [he])]
    constructor
    · intro h
      by_cases hcl : (cleanOptionalEmpty (get_definition_maps defs).defs_by_key
          (validateAll (get_definition_maps defs).defs_by_key
            (canonicalizeIncoming (get_definition_maps defs)
              (if pu then existing.getD [] else []) kvs) []).1).isEmpty
      · rw [if_pos hcl] at h
        cases h
      · rw [if_neg hcl] at h
        cases h
    · rintro ⟨h1, h2⟩
      rw [he] at h1
      exact absurd h1 h2
  · rw [if_pos (by simp [List.isEmpty_iff, he])]
    constructor
    · intro h
      injection h with h
      injection h with h
      exact ⟨h.symm, h ▸ he⟩
    · rintro ⟨h1, _⟩
      rw [h1]

/-- C4: error aggregation. Over any definition list with unique keys, when
validation fails (a) every definition whose (canonicalized, merged) value
yields a message — coercion failure or missing required value — has that
message recorded in the raised map under its canonical key, so all bad
fields surface together, never only the first; (b) validation fails
exactly when some definition yields a message; (c) a required definition
whose post-coercion value is `None` or a blank string always yields the
required-field message. -/
theorem validation_errors_aggregated (defs : List FieldDef)
    (kvs : List (String × JVal)) (existing : Option (List (String × JVal)))
    (pu : Bool) (hnd : (defs.map (fun d => d.key)).Nodup) :
    (∀ errs, normalize_and_validate_custom_fields defs (some (.obj kvs))
        existing pu = .error (.fields errs) →
      ∀ d ∈ defs, ∀ msg,
        fieldMsg d ((dictGet (canonicalizeIncoming (get_definition_maps defs)
          (if pu then existing.getD [] else []) kvs) d.key).getD .null)
            = some msg →
        (d.key, msg) ∈ errs) ∧
    ((∃ d ∈ defs,
        fieldMsg d ((dictGet (canonicalizeIncoming (get_definition_maps defs)
          (if pu then existing.getD [] else []) kvs) d.key).getD .null)
            ≠ Option.none) ↔
      ∃ errs, normalize_and_validate_custom_fields defs (some (.obj kvs))
        existing pu = .error (.fields errs)) ∧
    (∀ d : FieldDef, d.required = true → ∀ v,
      isNoneOrBlankStr (coerceForDef d v).1 = true →
      fieldMsg d v = some "Campo obbligatorio.") := by
  have hnd2 : (((get_definition_maps defs).defs_by_key).map Prod.fst).Nodup := by
    rw [defs_by_key_eq defs hnd, List.map_map]
    exact hnd
  refine ⟨?_, ⟨?_, ?_⟩, ?_⟩
  · intro errs h d hd msg hmsg
    rcases (normalize_error_iff defs kvs existing pu errs).mp h with ⟨he, _⟩
    rw [he]
    apply validateAll_mem _ _ _ (d.key, d) msg hnd2
    · rw [defs_by_key_eq defs hnd]
      exact List.mem_map.mpr ⟨d, hd, rfl⟩
    · intro e he2
      cases he2
    · exact hmsg
  · rintro ⟨d, hd, hne⟩
    cases hc : fieldMsg d ((dictGet (canonicalizeIncoming
        (get_definition_maps defs)
        (if pu then existing.getD [] else []) kvs) d.key).getD .null) with
    | none => exact absurd hc hne
    | some msg =>
      have hmem := validateAll_mem
        ((get_definition_maps defs).defs_by_key)
        (canonicalizeIncoming (get_definition_maps defs)
          (if pu then existing.getD [] else []) kvs) [] (d.key, d) msg hnd2
        (by rw [defs_by_key_eq defs hnd]; exact List.mem_map.mpr ⟨d, hd, rfl⟩)
        (by intro e he2; cases he2) hc
      refine ⟨(validateAll (get_definition_maps defs).defs_by_key
        (canonicalizeIncoming (get_definition_maps defs)
          (if pu then existing.getD [] else []) kvs) []).2, ?_⟩
      exact (normalize_error_iff defs kvs existing pu _).mpr
        ⟨rfl, List.ne_nil_of_mem hmem⟩
  · rintro ⟨errs, herr⟩
    by_contra hno
    push_neg at hno
    have hall : ∀ kd ∈ (get_definition_maps defs).defs_by_key,
        fieldMsg kd.2 ((dictGet (canonicalizeIncoming
          (get_definition_maps defs)
          (if pu then existing.getD [] else []) kvs) kd.1).getD .null)
            = Option.none := by
      intro kd hkd
      rw [defs_by_key_eq defs hnd] at hkd
      rcases List.mem_map.mp hkd with ⟨d, hd, rfl⟩
      exact hno d hd
    have hz := validateAll_no_errors _ _ [] hnd2 hall
    rcases (normalize_error_iff defs kvs existing pu errs).mp herr with ⟨he, hne⟩
    rw [hz] at he
    exact hne he
  · intro d hreq v hblank
    unfold fieldMsg
    rw [if_pos ⟨hreq, hblank⟩]

/-- Witness for `validation_errors_aggregated`: two bad fields — a number
field given `"abc"` and a missing required text field — are reported
together in one raised map. -/
theorem validation_errors_aggregated_witness :
    (("a", "Numero non valido.") ∈
      [("a", "Numero non valido."), ("b", "Campo obbligatorio.")]) ∧
    (("b", "Campo obbligatorio.") ∈
      [("a", "Numero non valido."), ("b", "Campo obbligatorio.")]) := by
  have h := validation_errors_aggregated
    [⟨"a", FieldType.number, false, Option.none, Option.none⟩,
     ⟨"b", FieldType.text, true, Option.none, Option.none⟩]
    [("a", .str "abc")] Option.none false (by decide)
  constructor
  · exact h.1 [("a", "Numero non valido."), ("b", "Campo obbligatorio.")] rfl
      ⟨"a", FieldType.number, false, Option.none, Option.none⟩
      (List.mem_cons.mpr (Or.inl rfl)) "Numero non valido." rfl
  · exact h.1 [("a", "Numero non valido."), ("b", "Campo obbligatorio.")] rfl
      ⟨"b", FieldType.text, true, Option.none, Option.none⟩
      (List.mem_cons.mpr (Or.inr (List.mem_cons.mpr (Or.inl rfl))))
      "Campo obbligatorio." rfl

/-- C3: number coercion. `"12,5"` parses with the comma as decimal
separator to the rational 25/2 kept as a float; `"10"` reduces to the int
10; `None` and the empty string map to `None`; and every non-numeric
non-empty value given to a number definition is flagged with the
number-error message — end to end, `{"n": "abc"}` raises exactly
`{"n": "Numero non valido."}`. -/
theorem number_coercion_correct :
    (coerce_number (.str "12,5") = .float (mkRat 25 2) ∧
      (mkRat 25 2 : Rat) = 25 / 2) ∧
    (coerce_number (.str "10") = .int 10) ∧
    (coerce_number .null = .null) ∧
    (coerce_number (.str "") = .null) ∧
    (∀ (d : FieldDef) (val : JVal), d.field_type = FieldType.number →
      isNoneOrEmptyStr val = false → coerce_number val = .null →
      (coerceForDef d val).2 = some "Numero non valido." ∧
      (d.required = false → fieldMsg d val = some "Numero non valido.")) ∧
    (normalize_and_validate_custom_fields
        [⟨"n", FieldType.number, false, Option.none, Option.none⟩]
        (some (.obj [("n", .str "abc")])) Option.none false
      = .error (.fields [("n", "Numero non valido.")])) := by
  refine ⟨⟨rfl, by norm_num [Rat.mkRat_eq_div]⟩, rfl, rfl, rfl, ?_, rfl⟩
  intro d val hty hne hcn
  have h2 : (coerceForDef d val).2 = some "Numero non valido." := by
    unfold coerceForDef
    rw [hty]
    simp [hne, hcn, isNull]
  refine ⟨h2, ?_⟩
  intro hreq
  unfold fieldMsg
  rw [if_neg (by simp [hreq])]
  exact h2

/-- Witness for `number_coercion_correct`: the error clause at a concrete
number definition and the value `"abc"`. -/
theorem number_coercion_correct_witness :
    (coerceForDef ⟨"n", FieldType.number, false, Option.none, Option.none⟩
      (.str "abc")).2 = some "Numero non valido." ∧
    fieldMsg ⟨"n", FieldType.number, false, Option.none, Option.none⟩
      (.str "abc") = some "Numero non valido." := by
  have h := number_coercion_correct.2.2.2.2.1
    ⟨"n", FieldType.number, false, Option.none, Option.none⟩
    (.str "abc") rfl rfl rfl
  exact ⟨h.1, h.2 rfl⟩

/-- The cleanup step leaves every other key alone. -/
theorem cleanStep_get_ne (m : List (String × JVal)) (kd : String × FieldDef)
    (n : String) (h : n ≠ kd.1) :
    dictGet (cleanStep m kd) n = dictGet m n := by
  unfold cleanStep
  by_cases hr : kd.2.required = true
  · rw [if_pos hr]
  · rw [if_neg hr]
    cases hg : dictGet m kd.1 with
    | none => rfl
    | some v =>
      by_cases hb : isNoneOrBlankStr v = true
      · simp only [hb, ite_true, if_pos]
        rw [dictGet_remove, if_neg h]
      · simp only [hb, ite_false, if_neg, Bool.false_eq_true]

/-- The cleanup step at its own key: keep a required field, drop a
`None`/blank value of a non-required field, keep anything else. -/
theorem cleanStep_get_self (m : List (String × JVal))
    (kd : String × FieldDef) :
    dictGet (cleanStep m kd) kd.1 =
      if kd.2.required then dictGet m kd.1
      else match dictGet m kd.1 with
        | Option.none => Option.none
        | some v =>
          if isNoneOrBlankStr v then Option.none else some v := by
  unfold cleanStep
  by_cases hr : kd.2.required = true
  · rw [if_pos hr, if_pos hr]
  · rw [if_neg hr, if_neg hr]
    cases hg : dictGet m kd.1 with
    | none => rw [hg]
    | some v =>
      by_cases hb : isNoneOrBlankStr v = true
      · simp only [hb, ite_true, if_pos]
        rw [dictGet_remove, if_pos rfl]
      · simp only [hb, ite_false, if_neg, Bool.false_eq_true]
        exact hg

/-- Keys not owned by any processed definition pass through the whole
cleanup loop. -/
theorem cleanFold_get_ne (dbk : List (String × FieldDef))
    (m : List (String × JVal)) (n : String)
    (h : ∀ kd ∈ dbk, kd.1 ≠ n) :
    dictGet (dbk.foldl cleanStep m) n = dictGet m n := by
  induction dbk generalizing m with
  | nil => rfl
  | cons kd rest ih =>
    rw [List.foldl_cons]
    rw [ih _ (fun kd2 h2 => h kd2 (List.mem_cons_of_mem kd h2))]
    exact cleanStep_get_ne m kd n
      (fun hc => h kd (List.mem_cons_self kd rest) hc.symm)

/-- Under unique keys, the whole cleanup loop acts at a definition's key
exactly as that definition's own step. -/
theorem cleanFold_get (dbk : List (String × FieldDef))
    (m : List (String × JVal)) (kd : String × FieldDef)
    (hnd : (dbk.map Prod.fst).Nodup) (hkd : kd ∈ dbk) :
    dictGet (dbk.foldl cleanStep m) kd.1 = dictGet (cleanStep m kd) kd.1 := by
  induction dbk generalizing m with
  | nil => cases hkd
  | cons kd0 rest ih =>
    rw [List.map_cons, List.nodup_cons] at hnd
    rw [List.foldl_cons]
    rcases List.mem_cons.mp hkd with hh | hh
    · subst hh
      apply cleanFold_get_ne
      intro kd2 h2 hc
      exact hnd.1 (hc ▸ List.mem_map.mpr ⟨kd2, h2, rfl⟩)
    · have hne : kd.1 ≠ kd0.1 := by
        intro hc
        exact hnd.1 (hc ▸ List.mem_map.mpr ⟨kd, hh, rfl⟩)
      rw [ih _ hnd.2 hh]
      rw [cleanStep_get_self, cleanStep_get_self,
        cleanStep_get_ne m kd0 kd.1 hne]

/-- C10: the cleanup pass removes exactly the `None`/blank-string values of
non-required known fields. Over any definition map with unique keys:
a key owned by no definition is never removed; a non-required definition's
`None` or whitespace-only string value is removed; any other stored value
— in particular a boolean coerced to `false` or a number coerced to `0` —
is retained unchanged; and required definitions' values are never
removed. -/
theorem cleanup_drops_only_blank_optional (dbk : List (String × FieldDef))
    (m : List (String × JVal)) (hnd : (dbk.map Prod.fst).Nodup) :
    (∀ k, (∀ kd ∈ dbk, kd.1 ≠ k) →
      dictGet (cleanOptionalEmpty dbk m) k = dictGet m k) ∧
    (∀ kd ∈ dbk, kd.2.required = false → ∀ v, dictGet m kd.1 = some v →
      isNoneOrBlankStr v = true →
      dictGet (cleanOptionalEmpty dbk m) kd.1 = Option.none) ∧
    (∀ kd ∈ dbk, ∀ v, dictGet m kd.1 = some v → isNoneOrBlankStr v = false →
      dictGet (cleanOptionalEmpty dbk m) kd.1 = some v) ∧
    (∀ kd ∈ dbk, kd.2.required = true →
      dictGet (cleanOptionalEmpty dbk m) kd.1 = dictGet m kd.1) := by
  refine ⟨?_, ?_, ?_, ?_⟩
  · intro k h
    exact cleanFold_get_ne dbk m k h
  · intro kd hkd hreq v hv hb
    rw [cleanOptionalEmpty, cleanFold_get dbk m kd hnd hkd,
      cleanStep_get_self, if_neg (by rw [hreq]; simp), hv]
    simp only [hb, ite_true, if_pos]
  · intro kd hkd v hv hb
    rw [cleanOptionalEmpty, cleanFold_get dbk m kd hnd hkd,
      cleanStep_get_self]
    by_cases hr : kd.2.required = true
    · rw [if_pos hr, hv]
    · rw [if_neg hr, hv]
      simp only [hb, ite_false, if_neg, Bool.false_eq_true]
  · intro kd hkd hreq
    rw [cleanOptionalEmpty, cleanFold_get dbk m kd hnd hkd,
      cleanStep_get_self, if_pos hreq]

/-- Witness for `cleanup_drops_only_blank_optional`: `false` and `0` are
retained, a whitespace-only optional text value is dropped, and an unknown
key survives. -/
theorem cleanup_drops_only_blank_optional_witness :
    (dictGet (cleanOptionalEmpty
      [("flag", ⟨"flag", FieldType.boolean, false, Option.none, Option.none⟩),
       ("num", ⟨"num", FieldType.number, false, Option.none, Option.none⟩),
       ("note", ⟨"note", FieldType.text, false, Option.none, Option.none⟩)]
      [("flag", .bool false), ("num", .int 0), ("note", .str " "),
       ("extra", .str "keep")]) "flag" = some (.bool false)) ∧
    (dictGet (cleanOptionalEmpty
      [("flag", ⟨"flag", FieldType.boolean, false, Option.none, Option.none⟩),
       ("num", ⟨"num", FieldType.number, false, Option.none, Option.none⟩),
       ("note", ⟨"note", FieldType.text, false, Option.none, Option.none⟩)]
      [("flag", .bool false), ("num", .int 0), ("note", .str " "),
       ("extra", .str "keep")]) "num" = some (.int 0)) ∧
    (dictGet (cleanOptionalEmpty
      [("flag", ⟨"flag", FieldType.boolean, false, Option.none, Option.none⟩),
       ("num", ⟨"num", FieldType.number, false, Option.none, Option.none⟩),
       ("note", ⟨"note", FieldType.text, false, Option.none, Option.none⟩)]
      [("flag", .bool false), ("num", .int 0), ("note", .str " "),
       ("extra", .str "keep")]) "note" = Option.none) ∧
    (dictGet (cleanOptionalEmpty
      [("flag", ⟨"flag", FieldType.boolean, false, Option.none, Option.none⟩),
       ("num", ⟨"num", FieldType.number, false, Option.none, Option.none⟩),
       ("note", ⟨"note", FieldType.text, false, Option.none, Option.none⟩)]
      [("flag", .bool false), ("num", .int 0), ("note", .str " "),
       ("extra", .str "keep")]) "extra" = some (.str "keep")) := by
  have h := cleanup_drops_only_blank_optional
    [("flag", ⟨"flag", FieldType.boolean, false, Option.none, Option.none⟩),
     ("num", ⟨"num", FieldType.number, false, Option.none, Option.none⟩),
     ("note", ⟨"note", FieldType.text, false, Option.none, Option.none⟩)]
    [("flag", .bool false), ("num", .int 0), ("note", .str " "),
     ("extra", .str "keep")] (by decide)
  refine ⟨?_, ?_, ?_, ?_⟩
  · exact h.2.2.1 ("flag", ⟨"flag", FieldType.boolean, false, Option.none,
      Option.none⟩) (List.mem_cons.mpr (Or.inl rfl)) (.bool false) rfl rfl
  · exact h.2.2.1 ("num", ⟨"num", FieldType.number, false, Option.none,
      Option.none⟩)
      (List.mem_cons.mpr (Or.inr (List.mem_cons.mpr (Or.inl rfl))))
      (.int 0) rfl rfl
  · exact h.2.1 ("note", ⟨"note", FieldType.text, false, Option.none,
      Option.none⟩)
      (List.mem_cons.mpr (Or.inr (List.mem_cons.mpr
        (Or.inr (List.mem_cons.mpr (Or.inl rfl)))))) rfl (.str " ") rfl rfl
  · exact h.1 "extra" (by decide)

end CustomFieldsClaims

end InventoryApp
